import Mathlib

/-!
Verification of the JSON-rewriting helpers of the cognigy-ci-cd-pipeline
repository (src/helper_files/helper_functions.py, src/helper_files/map_ids.py,
src/helper_files/cognigy_client.py).

JSON values are modelled by the inductive type `JSON`; Python dictionaries are
association lists in insertion order (Python 3.7+ dicts preserve insertion
order, and dicts loaded from JSON files have pairwise distinct keys).  Python
`None` is `JSON.null`.  Identifier values (`_id`, `referenceId`) are strings in
this data model, as everywhere in the repository's data.  Python `==` on JSON
data, which compares dictionaries by key set rather than by order, is modelled
by `pyEq` below.

Sections: the JSON data model and generic dictionary operations first, then
the embeddings of the Python functions (namespaces `hf` for
helper_functions.py, `mi` for map_ids.py, `cc` for cognigy_client.py), then
specification helpers, supporting lemmas, and the claim theorems.
-/

inductive JSON where
  | null : JSON
  | bool (b : Bool) : JSON
  | num (n : Int) : JSON
  | str (s : String) : JSON
  | arr (elems : List JSON) : JSON
  | obj (fields : List (String × JSON)) : JSON

mutual
/-- Structural (constructor-wise) Boolean equality on `JSON`, used only to
obtain decidable equality of the model type. -/
def jsonBeq : JSON → JSON → Bool
  | .null, .null => true
  | .bool a, .bool b => a == b
  | .num a, .num b => a == b
  | .str a, .str b => a == b
  | .arr xs, .arr ys => jsonListBeq xs ys
  | .obj fs, .obj gs => jsonFieldsBeq fs gs
  | _, _ => false

def jsonListBeq : List JSON → List JSON → Bool
  | [], [] => true
  | x :: xs, y :: ys => jsonBeq x y && jsonListBeq xs ys
  | _, _ => false

def jsonFieldsBeq : List (String × JSON) → List (String × JSON) → Bool
  | [], [] => true
  | (k, v) :: fs, (k2, v2) :: gs => k == k2 && jsonBeq v v2 && jsonFieldsBeq fs gs
  | _, _ => false
end

mutual
theorem jsonBeq_iff : ∀ a b : JSON, jsonBeq a b = true ↔ a = b
  | .null, .null => by simp [jsonBeq]
  | .bool _, .bool _ => by simp [jsonBeq]
  | .num _, .num _ => by simp [jsonBeq]
  | .str _, .str _ => by simp [jsonBeq]
  | .arr xs, .arr ys => by simp [jsonBeq, jsonListBeq_iff xs ys]
  | .obj fs, .obj gs => by simp [jsonBeq, jsonFieldsBeq_iff fs gs]
  | .null, .bool _ => by simp [jsonBeq]
  | .null, .num _ => by simp [jsonBeq]
  | .null, .str _ => by simp [jsonBeq]
  | .null, .arr _ => by simp [jsonBeq]
  | .null, .obj _ => by simp [jsonBeq]
  | .bool _, .null => by simp [jsonBeq]
  | .bool _, .num _ => by simp [jsonBeq]
  | .bool _, .str _ => by simp [jsonBeq]
  | .bool _, .arr _ => by simp [jsonBeq]
  | .bool _, .obj _ => by simp [jsonBeq]
  | .num _, .null => by simp [jsonBeq]
  | .num _, .bool _ => by simp [jsonBeq]
  | .num _, .str _ => by simp [jsonBeq]
  | .num _, .arr _ => by simp [jsonBeq]
  | .num _, .obj _ => by simp [jsonBeq]
  | .str _, .null => by simp [jsonBeq]
  | .str _, .bool _ => by simp [jsonBeq]
  | .str _, .num _ => by simp [jsonBeq]
  | .str _, .arr _ => by simp [jsonBeq]
  | .str _, .obj _ => by simp [jsonBeq]
  | .arr _, .null => by simp [jsonBeq]
  | .arr _, .bool _ => by simp [jsonBeq]
  | .arr _, .num _ => by simp [jsonBeq]
  | .arr _, .str _ => by simp [jsonBeq]
  | .arr _, .obj _ => by simp [jsonBeq]
  | .obj _, .null => by simp [jsonBeq]
  | .obj _, .bool _ => by simp [jsonBeq]
  | .obj _, .num _ => by simp [jsonBeq]
  | .obj _, .str _ => by simp [jsonBeq]
  | .obj _, .arr _ => by simp [jsonBeq]

theorem jsonListBeq_iff : ∀ xs ys : List JSON, jsonListBeq xs ys = true ↔ xs = ys
  | [], [] => by simp [jsonListBeq]
  | x :: xs, y :: ys => by simp [jsonListBeq, jsonBeq_iff x y, jsonListBeq_iff xs ys]
  | [], _ :: _ => by simp [jsonListBeq]
  | _ :: _, [] => by simp [jsonListBeq]

theorem jsonFieldsBeq_iff : ∀ fs gs : List (String × JSON),
    jsonFieldsBeq fs gs = true ↔ fs = gs
  | [], [] => by simp [jsonFieldsBeq]
  | (k, v) :: fs, (k2, v2) :: gs => by
      simp [jsonFieldsBeq, jsonBeq_iff v v2, jsonFieldsBeq_iff fs gs]
  | [], _ :: _ => by simp [jsonFieldsBeq]
  | _ :: _, [] => by simp [jsonFieldsBeq]
end

instance : DecidableEq JSON := fun a b =>
  decidable_of_iff (jsonBeq a b = true) (jsonBeq_iff a b)

/-- Python truthiness of a JSON value (`if value:`): None, False, 0, the empty
string, the empty list and the empty dict are falsy. -/
def truthy : JSON → Bool
  | .null => false
  | .bool b => b
  | .num n => n ≠ 0
  | .str s => s ≠ ""
  | .arr xs => xs ≠ []
  | .obj fs => fs ≠ []

/-- Dictionary lookup (`d.get(k)` / `d[k]` when present): the value of the
first pair whose key is `k`. -/
def lookupA {α : Type} : List (String × α) → String → Option α
  | [], _ => none
  | (k, v) :: rest, key => if k = key then some v else lookupA rest key

/-- Dictionary assignment `d[k] = v`: replaces the value of an existing key in
place, otherwise appends the new pair at the end (Python dict insertion
order). -/
def setKeyA {α : Type} : List (String × α) → String → α → List (String × α)
  | [], key, v => [(key, v)]
  | (k, w) :: rest, key, v =>
      if k = key then (key, v) :: rest else (k, w) :: setKeyA rest key v

/-- Dictionary comprehension `{k: v for k, v in d.items() if k not in ks}`. -/
def filterK {α : Type} (ks : List String) (fs : List (String × α)) :
    List (String × α) :=
  fs.filter (fun kv => !ks.contains kv.1)

/-- Keys of a dictionary, in order. -/
def keysOf {α : Type} (fs : List (String × α)) : List String :=
  fs.map Prod.fst

/-- Boolean key-distinctness of a dictionary. -/
def noDupKeys {α : Type} : List (String × α) → Bool
  | [] => true
  | (k, _) :: rest => !(keysOf rest).contains k && noDupKeys rest

theorem lookupA_mem {α : Type} {fs : List (String × α)} {k : String} {v : α}
    (h : lookupA fs k = some v) : (k, v) ∈ fs := by
  induction fs with
  | nil => simp [lookupA] at h
  | cons p rest ih =>
      obtain ⟨k2, v2⟩ := p
      simp only [lookupA] at h
      split at h
      · cases h
        subst_vars
        exact List.mem_cons_self _ _
      · exact List.mem_cons_of_mem _ (ih h)

theorem lookupA_isSome_mem {α : Type} {fs : List (String × α)} {k : String}
    (h : (lookupA fs k).isSome = true) : k ∈ keysOf fs := by
  cases hv : lookupA fs k with
  | none => rw [hv] at h; simp at h
  | some v =>
      have := lookupA_mem hv
      exact List.mem_map_of_mem Prod.fst this

theorem lookupA_eq_none {α : Type} {fs : List (String × α)} {k : String}
    (h : k ∉ keysOf fs) : lookupA fs k = none := by
  induction fs with
  | nil => rfl
  | cons p rest ih =>
      obtain ⟨k2, v2⟩ := p
      simp only [keysOf, List.map_cons, List.mem_cons] at h
      push_neg at h
      simp only [lookupA]
      rw [if_neg (by exact fun hh => h.1 hh.symm)]
      exact ih (by simpa [keysOf] using h.2)

theorem mem_lookupA {α : Type} {fs : List (String × α)} {k : String} {v : α}
    (hnd : noDupKeys fs = true) (h : (k, v) ∈ fs) : lookupA fs k = some v := by
  induction fs with
  | nil => simp at h
  | cons p rest ih =>
      obtain ⟨k2, v2⟩ := p
      simp only [noDupKeys, Bool.and_eq_true] at hnd
      rcases List.mem_cons.mp h with h1 | h1
      · cases h1
        simp [lookupA]
      · have hk : k2 ≠ k := by
          intro hh
          subst hh
          have : k2 ∈ keysOf rest := List.mem_map_of_mem Prod.fst h1
          simp [this] at hnd
        simp only [lookupA, if_neg hk]
        exact ih hnd.2 h1

theorem lookupA_setKeyA_same {α : Type} (fs : List (String × α)) (k : String)
    (v : α) : lookupA (setKeyA fs k v) k = some v := by
  induction fs with
  | nil => simp [setKeyA, lookupA]
  | cons p rest ih =>
      obtain ⟨k2, v2⟩ := p
      simp only [setKeyA]
      split
      · simp [lookupA]
      · rename_i hne
        simp only [lookupA, if_neg hne]
        exact ih

theorem lookupA_setKeyA_other {α : Type} (fs : List (String × α)) (k k2 : String)
    (v : α) (hne : k ≠ k2) : lookupA (setKeyA fs k v) k2 = lookupA fs k2 := by
  induction fs with
  | nil => simp [setKeyA, lookupA, hne]
  | cons p rest ih =>
      obtain ⟨k3, v3⟩ := p
      simp only [setKeyA]
      split
      · rename_i hk
        subst hk
        simp [lookupA, hne]
      · simp only [lookupA]
        split
        · rfl
        · exact ih

theorem lookupA_filterK {α : Type} (ks : List String) (fs : List (String × α))
    (k : String) :
    lookupA (filterK ks fs) k = if k ∈ ks then none else lookupA fs k := by
  induction fs with
  | nil => simp [filterK, lookupA]
  | cons p rest ih =>
      obtain ⟨k2, v2⟩ := p
      have hsplit : filterK ks ((k2, v2) :: rest) =
          if k2 ∈ ks then filterK ks rest else (k2, v2) :: filterK ks rest := by
        simp only [filterK, List.filter_cons]
        by_cases hk2 : k2 ∈ ks <;> simp [hk2]
      rw [hsplit]
      by_cases hk2 : k2 ∈ ks <;> by_cases hkk : k2 = k
      · subst hkk
        simp [ih, hk2]
      · simp only [if_pos hk2]
        rw [ih]
        simp [lookupA, hkk]
      · subst hkk
        simp [if_neg hk2, lookupA, hk2]
      · simp only [if_neg hk2, lookupA, if_neg hkk]
        exact ih

theorem keysOf_setKeyA {α : Type} (fs : List (String × α)) (k : String) (v : α) :
    keysOf (setKeyA fs k v) =
      if k ∈ keysOf fs then keysOf fs else keysOf fs ++ [k] := by
  induction fs with
  | nil => simp [setKeyA, keysOf]
  | cons p rest ih =>
      obtain ⟨k2, v2⟩ := p
      simp only [setKeyA]
      split
      · rename_i hk2
        subst hk2
        simp [keysOf]
      · rename_i hne
        simp only [keysOf, List.map_cons] at ih ⊢
        rw [ih]
        by_cases hmem : k ∈ List.map Prod.fst rest

        · simp only [if_pos hmem]
          rw [if_pos (List.mem_cons_of_mem _ hmem)]
        · simp only [if_neg hmem]
          rw [if_neg (by
            intro hh
            rcases List.mem_cons.mp hh with hh1 | hh1
            · exact hne hh1.symm
            · exact hmem hh1)]
          simp

theorem noDupKeys_setKeyA {α : Type} {fs : List (String × α)} (k : String)
    (v : α) (h : noDupKeys fs = true) : noDupKeys (setKeyA fs k v) = true := by
  induction fs with
  | nil => simp [setKeyA, noDupKeys, keysOf]
  | cons p rest ih =>
      obtain ⟨k2, v2⟩ := p
      simp only [noDupKeys, Bool.and_eq_true] at h
      simp only [setKeyA]
      split
      · rename_i hk2
        subst hk2
        simp only [noDupKeys, Bool.and_eq_true]
        exact ⟨h.1, h.2⟩
      · rename_i hne
        simp only [noDupKeys, Bool.and_eq_true]
        refine ⟨?_, ih h.2⟩
        rw [keysOf_setKeyA]
        split
        · exact h.1
        · have h1 : k2 ∉ keysOf rest := by
            have := h.1
            simpa using this
          have h2 : k2 ∉ keysOf rest ++ [k] := by
            intro hh
            rcases List.mem_append.mp hh with hh1 | hh1
            · exact h1 hh1
            · simp at hh1
              exact hne hh1
          simpa using h2

theorem sizeOf_lookupA {fs : List (String × JSON)} {k : String} {v : JSON}
    (h : lookupA fs k = some v) : sizeOf v < sizeOf fs := by
  induction fs with
  | nil => simp [lookupA] at h
  | cons p rest ih =>
      obtain ⟨k2, v2⟩ := p
      simp only [lookupA] at h
      split at h
      · cases h
        simp
        omega
      · have := ih h
        simp
        omega

mutual
/-- Python equality `==` on JSON data: scalars compare by value, lists
elementwise, and dictionaries by key set — each key of either side must be
present in the other with `==`-equal value, regardless of insertion order. -/
def pyEq : JSON → JSON → Bool
  | .null, .null => true
  | .bool a, .bool b => a == b
  | .num a, .num b => a == b
  | .str a, .str b => a == b
  | .arr xs, .arr ys => pyListEq xs ys
  | .obj fs, .obj gs => pyObjSub fs gs && pyObjSub gs fs
  | _, _ => false
termination_by a b => sizeOf a + sizeOf b
decreasing_by
  all_goals simp_wf
  all_goals omega

/-- Elementwise Python equality of two lists. -/
def pyListEq : List JSON → List JSON → Bool
  | [], [] => true
  | x :: xs, y :: ys => pyEq x y && pyListEq xs ys
  | _, _ => false
termination_by xs ys => sizeOf xs + sizeOf ys
decreasing_by
  all_goals simp_wf
  all_goals omega

/-- One inclusion of Python dictionary equality: every pair of the first
dictionary has a `==`-equal value under the same key in the second. -/
def pyObjSub : List (String × JSON) → List (String × JSON) → Bool
  | [], _ => true
  | (k, v) :: rest, gs =>
      (match h : lookupA gs k with
       | some w => pyEq v w
       | none => false) && pyObjSub rest gs
termination_by fs gs => sizeOf fs + sizeOf gs
decreasing_by
  all_goals simp_wf
  all_goals try omega
  all_goals (have hlt := sizeOf_lookupA h; omega)
end

theorem pyObjSub_iff (fs gs : List (String × JSON)) :
    pyObjSub fs gs = true ↔
      ∀ p ∈ fs, ∃ w, lookupA gs p.1 = some w ∧ pyEq p.2 w = true := by
  induction fs with
  | nil => simp [pyObjSub]
  | cons p rest ih =>
      obtain ⟨k, v⟩ := p
      rw [pyObjSub]
      constructor
      · intro h
        rw [Bool.and_eq_true] at h
        intro q hq
        rcases List.mem_cons.mp hq with hq1 | hq1
        · subst hq1
          cases hl : lookupA gs k with
          | none => rw [hl] at h; simp at h
          | some w =>
              rw [hl] at h
              exact ⟨w, rfl, h.1⟩
        · exact (ih.mp h.2) q hq1
      · intro h
        rw [Bool.and_eq_true]
        constructor
        · obtain ⟨w, hw, hpe⟩ := h (k, v) (List.mem_cons_self _ _)
          rw [hw]
          exact hpe
        · exact ih.mpr (fun q hq => h q (List.mem_cons_of_mem _ hq))

mutual
/-- Well-formedness of a JSON value as Python data: every dictionary anywhere
inside it has pairwise distinct keys (Python dicts cannot repeat a key). -/
def wfJ : JSON → Bool
  | .obj fs => noDupKeys fs && wfFields fs
  | .arr xs => wfList xs
  | _ => true

def wfList : List JSON → Bool
  | [] => true
  | x :: xs => wfJ x && wfList xs

def wfFields : List (String × JSON) → Bool
  | [] => true
  | (_, v) :: rest => wfJ v && wfFields rest
end

theorem wfFields_mem {fs : List (String × JSON)} (h : wfFields fs = true) :
    ∀ p ∈ fs, wfJ p.2 = true := by
  induction fs with
  | nil => simp
  | cons p rest ih =>
      obtain ⟨k, v⟩ := p
      rw [wfFields, Bool.and_eq_true] at h
      intro q hq
      rcases List.mem_cons.mp hq with hq1 | hq1
      · subst hq1; exact h.1
      · exact ih h.2 q hq1

mutual
theorem pyEq_refl : ∀ a : JSON, wfJ a = true → pyEq a a = true
  | .null, _ => by rw [pyEq]
  | .bool b, _ => by rw [pyEq]; simp
  | .num n, _ => by rw [pyEq]; simp
  | .str s, _ => by rw [pyEq]; simp
  | .arr xs, h => by
      rw [pyEq]
      exact pyListEq_refl xs (by rwa [wfJ] at h)
  | .obj fs, h => by
      rw [pyEq, Bool.and_eq_true]
      rw [wfJ, Bool.and_eq_true] at h
      have hsub : pyObjSub fs fs = true := by
        rw [pyObjSub_iff]
        intro p hp
        exact ⟨p.2, mem_lookupA h.1 (by cases p; exact hp),
          pyFields_refl fs h.2 p hp⟩
      exact ⟨hsub, hsub⟩

theorem pyListEq_refl : ∀ xs : List JSON, wfList xs = true → pyListEq xs xs = true
  | [], _ => by rw [pyListEq]
  | x :: xs, h => by
      rw [wfList, Bool.and_eq_true] at h
      rw [pyListEq, Bool.and_eq_true]
      exact ⟨pyEq_refl x h.1, pyListEq_refl xs h.2⟩

theorem pyFields_refl : ∀ fs : List (String × JSON), wfFields fs = true →
    ∀ p ∈ fs, pyEq p.2 p.2 = true
  | [], _ => by simp
  | (k, v) :: rest, h => by
      rw [wfFields, Bool.and_eq_true] at h
      intro q hq
      rcases List.mem_cons.mp hq with hq1 | hq1
      · subst hq1
        exact pyEq_refl v h.1
      · exact pyFields_refl rest h.2 q hq1
end

namespace hf

/-- Table lookup with fallback, the effect of one substitution of
helper_functions.replace_ids: a string that is a key of the table becomes the
mapped main id, any other string is left as it is. -/
def subst (m : List (String × String)) (s : String) : String :=
  match lookupA m s with
  | some t => t
  | none => s

mutual
/-- helper_functions.replace_ids (lines 185-208), as a pure function: in a
dict, every value that is a string belonging to the table is replaced, any
other value is processed recursively; in a list, every element that is a
string belonging to the table is replaced, any other element is processed
recursively.  Recursing into a scalar changes nothing, so a string value not
in the table stays as it is, which is exactly `subst`. -/
def replace_ids (m : List (String × String)) : JSON → JSON
  | .obj fs => .obj (replaceFields m fs)
  | .arr xs => .arr (replaceElems m xs)
  | j => j

def replaceFields (m : List (String × String)) :
    List (String × JSON) → List (String × JSON)
  | [] => []
  | (k, .str s) :: rest => (k, .str (subst m s)) :: replaceFields m rest
  | (k, v) :: rest => (k, replace_ids m v) :: replaceFields m rest

def replaceElems (m : List (String × String)) : List JSON → List JSON
  | [] => []
  | .str s :: rest => .str (subst m s) :: replaceElems m rest
  | v :: rest => replace_ids m v :: replaceElems m rest
end

/-- Dictionary lookup over a table whose keys are JSON values (the id mapping
of create_id_mapping, whose keys are `_id` values).  Python compares dict keys
with `==`; on the hashable scalars used as ids this is structural equality. -/
def lookupD : List (JSON × JSON) → JSON → Option JSON
  | [], _ => none
  | (k, v) :: rest, key => if k = key then some v else lookupD rest key

/-- Assignment into a JSON-keyed dictionary, in insertion order. -/
def setKeyD : List (JSON × JSON) → JSON → JSON → List (JSON × JSON)
  | [], key, v => [(key, v)]
  | (k, w) :: rest, key, v =>
      if k = key then (key, v) :: rest else (k, w) :: setKeyD rest key v

/-- Loop body accumulator of helper_functions.create_id_mapping (lines
176-183): for each referenceId of the main mapping in order, when the feature
mapping has a truthy entry for it and both entries have an `_id` key, the
feature `_id` is mapped to the main `_id`. -/
def createIdMappingAux (feature : List (String × List (String × JSON))) :
    List (String × List (String × JSON)) → List (JSON × JSON) →
      List (JSON × JSON)
  | [], acc => acc
  | (ref, mobj) :: rest, acc =>
      createIdMappingAux feature rest
        (match lookupA feature ref with
         | some fo =>
             if fo = [] then acc
             else
               match lookupA mobj "_id", lookupA fo "_id" with
               | some mid, some fid => setKeyD acc fid mid
               | _, _ => acc
         | none => acc)

/-- helper_functions.create_id_mapping (lines 176-183). -/
def create_id_mapping (main feature : List (String × List (String × JSON))) :
    List (JSON × JSON) :=
  createIdMappingAux feature main []

/-- Truthy string referenceId of an object, the condition under which
load_json_files records it (`if reference_id and ...`).  Identifiers are
strings in this data model. -/
def refOf (fs : List (String × JSON)) : Option String :=
  match lookupA fs "referenceId" with
  | some (.str r) => if r = "" then none else some r
  | _ => none

mutual
/-- extract_objects inside helper_functions.load_json_files (lines 131-142):
collects every dict bearing a `referenceId` key, the dict itself before the
dicts nested in its values, values in insertion order, list elements in list
order. -/
def extract_objects : JSON → List (List (String × JSON))
  | .obj fs =>
      (if (lookupA fs "referenceId").isSome then [fs] else []) ++
        extractFields fs
  | .arr xs => extractList xs
  | _ => []

def extractFields : List (String × JSON) → List (List (String × JSON))
  | [] => []
  | (_, v) :: rest => extract_objects v ++ extractFields rest

def extractList : List JSON → List (List (String × JSON))
  | [] => []
  | x :: xs => extract_objects x ++ extractList xs
end

/-- Mapping-building loop of load_json_files (both variants share it, they
differ only in the entry stored): an object with a truthy referenceId is
recorded only when the referenceId is not yet a key of the mapping
(`if reference_id and reference_id not in mapping`). -/
def buildMappingAux {α : Type} (mk : List (String × JSON) → α) :
    List (List (String × JSON)) → List (String × α) → List (String × α)
  | [], mapping => mapping
  | fs :: rest, mapping =>
      buildMappingAux mk rest
        (match refOf fs with
         | some r =>
             if (lookupA mapping r).isSome then mapping
             else mapping ++ [(r, mk fs)]
         | none => mapping)

/-- Entry stored by helper_functions.load_json_files (lines 152-155):
`{"_id": obj.get("_id"), "objectData": obj}`; a missing `_id` stores Python
None, that is `JSON.null`. -/
def mkEntry (fs : List (String × JSON)) : List (String × JSON) :=
  [("_id", (lookupA fs "_id").getD .null), ("objectData", .obj fs)]

/-- helper_functions.load_json_files (lines 129-157) over the parsed contents
of the files, in file-enumeration order. -/
def load_json_files (files : List JSON) :
    List (String × List (String × JSON)) :=
  buildMappingAux mkEntry (files.map extract_objects).flatten []

/-- Metadata keys of replace_metadata_in_files (line 46): only lastChanged
and lastChangedBy. -/
def metadata_keys : List String := ["lastChanged", "lastChangedBy"]

/-- Conditional copy `if k in src: dst[k] = src[k]`. -/
def copyIfPresent (src dst : List (String × JSON)) (k : String) :
    List (String × JSON) :=
  match lookupA src k with
  | some v => setKeyA dst k v
  | none => dst

/-- Body of replace_metadata_in_object once a main object B is found (lines
90-106): createdAt, createdBy, chartReference and intentTrainGroupReference
are copied from B unconditionally when B has them; then the object with only
lastChanged/lastChangedBy filtered out is compared (Python `==`) with B
filtered the same way, and only on equality lastChanged and lastChangedBy are
copied as well.  metadata_keys is a Python set of two distinct keys, so its
iteration order does not affect the result; one order is fixed here. -/
def applyMainMeta (B fs : List (String × JSON)) : List (String × JSON) :=
  let fs1 := copyIfPresent B fs "createdAt"
  let fs2 := copyIfPresent B fs1 "createdBy"
  let fs3 := copyIfPresent B fs2 "chartReference"
  let fs4 := copyIfPresent B fs3 "intentTrainGroupReference"
  if pyEq (.obj (filterK metadata_keys fs4)) (.obj (filterK metadata_keys B)) then
    copyIfPresent B (copyIfPresent B fs4 "lastChanged") "lastChangedBy"
  else fs4

/-- Per-object action of helper_functions.replace_metadata_in_object (lines
82-107) on one dict: when the dict has a truthy referenceId that is a key of
main_mapping and that entry's objectData is a truthy dict, applyMainMeta runs;
otherwise the dict is unchanged.  The surrounding recursion (lines 109-116)
applies this same action to every nested dict.  objectData is a dict wherever
this mapping is built (load_json_files stores the extracted object). -/
def replace_metadata_step (mm : List (String × List (String × JSON)))
    (fs : List (String × JSON)) : List (String × JSON) :=
  match lookupA fs "referenceId" with
  | some (.str r) =>
      if r = "" then fs
      else
        match lookupA mm r with
        | some entry =>
            match lookupA entry "objectData" with
            | some (.obj B) => if B = [] then fs else applyMainMeta B fs
            | _ => fs
        | none => fs
  | _ => fs

/-- Inner match of replace_lexicon_ids (lines 322-327): the first main
lexicon value whose keyphrase compares `==`-equal to the feature keyphrase. -/
def findKeyphraseMatch (mvs : List (List (String × JSON))) (kp : JSON) :
    Option (List (String × JSON)) :=
  mvs.find? (fun mv =>
    match lookupA mv "keyphrase" with
    | some w => pyEq w kp
    | none => false)

/-- Per-value action of replace_lexicon_ids (lines 317-327): a feature value
with a falsy or missing keyphrase is skipped; otherwise the first main value
with an `==`-equal keyphrase donates its `_id`.  `main_value["_id"]` raises
KeyError when the matched main value has no `_id`, modelled by `none`. -/
def replace_lexicon_value (mvs : List (List (String × JSON)))
    (fv : List (String × JSON)) : Option (List (String × JSON)) :=
  match lookupA fv "keyphrase" with
  | some kp =>
      if truthy kp then
        match findKeyphraseMatch mvs kp with
        | some mv =>
            match lookupA mv "_id" with
            | some mid => some (setKeyA fv "_id" mid)
            | none => none
        | none => some fv
      else some fv
  | none => some fv

/-- The whole values loop of replace_lexicon_ids for one matched pair of
lexicons: every feature value is processed in order. -/
def replace_lexicon_values (mvs fvs : List (List (String × JSON))) :
    Option (List (List (String × JSON))) :=
  fvs.mapM (replace_lexicon_value mvs)

/-- Outcome of one underlying call of a function wrapped by retry_on_500: a
return value, or a requests.HTTPError whose response carries the given status
code (`none` models `e.response is None`). -/
inductive CallOutcome where
  | ok (v : Int) : CallOutcome
  | httpError (status : Option Nat) : CallOutcome
  deriving DecidableEq

/-- Wrapper loop of the retry_on_500 decorator (helper_functions lines 9-28)
over the list of outcomes the successive underlying calls would produce:
returns how many calls were made and the outcome that propagates.  Only an
HTTPError with a response of status exactly 500 is retried, after
`max_retries` retries it propagates; everything else propagates at once.
`none` when the loop would call beyond the given outcomes.  The fixed
`time.sleep(wait_seconds)` backoff between retries has no observable effect in
this model. -/
def retryAux (maxRetries : Nat) : Nat → List CallOutcome →
    Option (Nat × CallOutcome)
  | _, [] => none
  | retries, c :: rest =>
      match c with
      | .ok v => some (1, .ok v)
      | .httpError s =>
          if s = some 500 then
            if retries + 1 > maxRetries then some (1, .httpError s)
            else (retryAux maxRetries (retries + 1) rest).map
              (fun p => (p.1 + 1, p.2))
          else some (1, .httpError s)

/-- A call of a function wrapped by `retry_on_500(max_retries, wait_seconds)`:
the loop starts with `retries = 0`. -/
def retry_on_500 (maxRetries : Nat) (calls : List CallOutcome) :
    Option (Nat × CallOutcome) :=
  retryAux maxRetries 0 calls

end hf

/-- Character-list helper for `strEndsWith`. -/
def listPrefixChars : List Char → List Char → Bool
  | [], _ => true
  | _ :: _, [] => false
  | a :: as, b :: bs => a == b && listPrefixChars as bs

/-- Python `str.endswith`, evaluated over the character lists of the two
strings. -/
def strEndsWith (s post : String) : Bool :=
  listPrefixChars post.data.reverse s.data.reverse

namespace cc

/-- Size-stabilisation loop of cognigy_client.download_package (lines
239-284), over the sequence of sizes the successive downloads observe:
`prev` is prev_size (initially 0).  A zero size retries without touching
prev_size; a first non-zero size (prev_size still 0) records it and retries;
a changed size records it and retries; otherwise the download is accepted.
Returns how many checks ran up to acceptance, `none` when the sequence is
exhausted without acceptance. -/
def downloadPoll : Nat → List Nat → Option Nat
  | _, [] => none
  | prev, c :: rest =>
      if c = 0 then (downloadPoll prev rest).map (· + 1)
      else if prev = 0 then (downloadPoll c rest).map (· + 1)
      else if c ≠ prev then (downloadPoll c rest).map (· + 1)
      else some 1

/-- cognigy_client.deploy_agent (lines 824-861) up to the upload: the snapshot
directory's file names are filtered to `.csnap`; no such file or more than one
raises before any upload, exactly one is uploaded (`.ok` carries the uploaded
file name). -/
def deploy_agent (files : List String) : Except String String :=
  let csnaps := files.filter (fun f => strEndsWith f ".csnap")
  if csnaps.isEmpty then
    .error "No .csnap file found in the snapshot directory."
  else if csnaps.length > 1 then
    .error "Multiple .csnap files found in the snapshot directory. There should be only one."
  else .ok (csnaps.headD "")

end cc

namespace mi

mutual
/-- map_ids.replace_ids (lines 49-59): the dict branch is that of the
helper_functions variant, but the list branch only recurses into each element
(`for item in data: replace_ids(item, ...)`), so a string element is never
replaced (recursing into a string does nothing). -/
def replace_ids (m : List (String × String)) : JSON → JSON
  | .obj fs => .obj (replaceFieldsM m fs)
  | .arr xs => .arr (replaceElemsM m xs)
  | j => j

def replaceFieldsM (m : List (String × String)) :
    List (String × JSON) → List (String × JSON)
  | [] => []
  | (k, .str s) :: rest => (k, .str (hf.subst m s)) :: replaceFieldsM m rest
  | (k, v) :: rest => (k, replace_ids m v) :: replaceFieldsM m rest

def replaceElemsM (m : List (String × String)) : List JSON → List JSON
  | [] => []
  | v :: rest => replace_ids m v :: replaceElemsM m rest
end

/-- Metadata keys of map_ids.compare_and_replace_metadata (line 63): all
four. -/
def meta4 : List String := ["createdAt", "lastChanged", "createdBy", "lastChangedBy"]

/-- Conditional copy `if k in dst and k in src: dst[k] = src[k]` (lines
72-74, feature_obj[key] = main_obj[key]). -/
def copyIfBoth (src dst : List (String × JSON)) (k : String) :
    List (String × JSON) :=
  match lookupA dst k, lookupA src k with
  | some _, some v => setKeyA dst k v
  | _, _ => dst

/-- Per-pair action of map_ids.compare_and_replace_metadata (lines 64-74):
when main and feature object compare `==`-equal after dropping the four
metadata keys, each of the four present in both is copied from main to
feature; otherwise the feature object is untouched.  metadata_keys is a
Python set of four distinct keys, so its iteration order does not affect the
result; one order is fixed here. -/
def compare_replace_step (mobj fobj : List (String × JSON)) :
    List (String × JSON) :=
  if pyEq (.obj (filterK meta4 mobj)) (.obj (filterK meta4 fobj)) then
    meta4.foldl (fun d k => copyIfBoth mobj d k) fobj
  else fobj

/-- map_ids.compare_and_replace_metadata (lines 61-74) over whole mappings:
for each referenceId of the main mapping, a truthy feature entry under the
same referenceId is reconciled in place. -/
def carmAux : List (String × List (String × JSON)) →
    List (String × List (String × JSON)) →
      List (String × List (String × JSON))
  | [], fm => fm
  | (ref, mobj) :: rest, fm =>
      carmAux rest
        (match lookupA fm ref with
         | some fo =>
             if fo = [] then fm
             else setKeyA fm ref (compare_replace_step mobj fo)
         | none => fm)

/-- map_ids.compare_and_replace_metadata entry point. -/
def compare_and_replace_metadata
    (mm fm : List (String × List (String × JSON))) :
    List (String × List (String × JSON)) :=
  carmAux mm fm

/-- map_ids.load_json_files (lines 14-38): same extraction and same
first-seen recording as the helper_functions variant, but the entry stored is
the object itself. -/
def load_json_files (files : List JSON) :
    List (String × List (String × JSON)) :=
  hf.buildMappingAux (fun fs => fs) (files.map hf.extract_objects).flatten []

end mi

mutual
/-- String occurrences of a JSON value at replaceable positions: dictionary
values and list elements, recursively.  These are exactly the positions
replace_ids substitutes at (dict keys and a bare top-level string are not
replaceable). -/
def strOccs : JSON → List String
  | .obj fs => fieldOccs fs
  | .arr xs => elemOccs xs
  | _ => []

def fieldOccs : List (String × JSON) → List String
  | [] => []
  | (_, .str s) :: rest => s :: fieldOccs rest
  | (_, v) :: rest => strOccs v ++ fieldOccs rest

def elemOccs : List JSON → List String
  | [] => []
  | .str s :: rest => s :: elemOccs rest
  | v :: rest => strOccs v ++ elemOccs rest
end

mutual
/-- Check that no list anywhere inside the value has a string element that is
a key of the table — the inputs on which the two replace_ids variants cannot
be told apart. -/
def listSafe (m : List (String × String)) : JSON → Bool
  | .obj fs => listSafeFields m fs
  | .arr xs => listSafeElems m xs
  | _ => true

def listSafeFields (m : List (String × String)) : List (String × JSON) → Bool
  | [] => true
  | (_, v) :: rest => listSafe m v && listSafeFields m rest

def listSafeElems (m : List (String × String)) : List JSON → Bool
  | [] => true
  | .str s :: rest => !(lookupA m s).isSome && listSafeElems m rest
  | v :: rest => listSafe m v && listSafeElems m rest
end

/-- Most recent non-zero reading of a list of sizes, with fallback `prev`:
the value prev_size holds after the download loop has consumed the list. -/
def lastNZ : Nat → List Nat → Nat
  | prev, [] => prev
  | prev, c :: rest => lastNZ (if c = 0 then prev else c) rest

/-- Acceptance condition of the download loop at check `n` (1-based): the
n-th size is non-zero and equals the most recent non-zero reading before it
(with baseline `prev`, initially 0). -/
def acceptAt (prev : Nat) (sizes : List Nat) (n : Nat) : Bool :=
  match n, sizes.get? (n - 1) with
  | 0, _ => false
  | _ + 1, some c => c ≠ 0 && c == lastNZ prev (sizes.take (n - 1))
  | _ + 1, none => false

mutual
theorem strOccs_replace (m : List (String × String)) :
    ∀ d : JSON, strOccs (hf.replace_ids m d) = (strOccs d).map (hf.subst m)
  | .null => by simp [hf.replace_ids, strOccs]
  | .bool _ => by simp [hf.replace_ids, strOccs]
  | .num _ => by simp [hf.replace_ids, strOccs]
  | .str _ => by simp [hf.replace_ids, strOccs]
  | .arr xs => by
      simp [hf.replace_ids, strOccs, elemOccs_replace m xs]
  | .obj fs => by
      simp [hf.replace_ids, strOccs, fieldOccs_replace m fs]

theorem fieldOccs_replace (m : List (String × String)) :
    ∀ fs : List (String × JSON),
      fieldOccs (hf.replaceFields m fs) = (fieldOccs fs).map (hf.subst m)
  | [] => by simp [hf.replaceFields, fieldOccs]
  | (k, .null) :: rest => by
      simp [hf.replaceFields, fieldOccs, hf.replace_ids, strOccs,
        fieldOccs_replace m rest]
  | (k, .bool b) :: rest => by
      simp [hf.replaceFields, fieldOccs, hf.replace_ids, strOccs,
        fieldOccs_replace m rest]
  | (k, .num n) :: rest => by
      simp [hf.replaceFields, fieldOccs, hf.replace_ids, strOccs,
        fieldOccs_replace m rest]
  | (k, .str s) :: rest => by
      simp [hf.replaceFields, fieldOccs, fieldOccs_replace m rest]
  | (k, .arr xs) :: rest => by
      simp [hf.replaceFields, fieldOccs, hf.replace_ids, strOccs,
        elemOccs_replace m xs, fieldOccs_replace m rest]
  | (k, .obj gs) :: rest => by
      simp [hf.replaceFields, fieldOccs, hf.replace_ids, strOccs,
        fieldOccs_replace m gs, fieldOccs_replace m rest]

theorem elemOccs_replace (m : List (String × String)) :
    ∀ xs : List JSON,
      elemOccs (hf.replaceElems m xs) = (elemOccs xs).map (hf.subst m)
  | [] => by simp [hf.replaceElems, elemOccs]
  | .null :: rest => by
      simp [hf.replaceElems, elemOccs, hf.replace_ids, strOccs,
        elemOccs_replace m rest]
  | .bool b :: rest => by
      simp [hf.replaceElems, elemOccs, hf.replace_ids, strOccs,
        elemOccs_replace m rest]
  | .num n :: rest => by
      simp [hf.replaceElems, elemOccs, hf.replace_ids, strOccs,
        elemOccs_replace m rest]
  | .str s :: rest => by
      simp [hf.replaceElems, elemOccs, elemOccs_replace m rest]
  | .arr xs :: rest => by
      simp [hf.replaceElems, elemOccs, hf.replace_ids, strOccs,
        elemOccs_replace m xs, elemOccs_replace m rest]
  | .obj gs :: rest => by
      simp [hf.replaceElems, elemOccs, hf.replace_ids, strOccs,
        fieldOccs_replace m gs, elemOccs_replace m rest]
end

theorem subst_idem {m : List (String × String)}
    (h : ∀ p ∈ m, lookupA m p.2 = none) (s : String) :
    hf.subst m (hf.subst m s) = hf.subst m s := by
  unfold hf.subst
  cases hl : lookupA m s with
  | none => simp [hl]
  | some t =>
      have : lookupA m t = none := h (s, t) (lookupA_mem hl)
      simp [this]

mutual
theorem replaceIdsIdemAux {m : List (String × String)}
    (h : ∀ p ∈ m, lookupA m p.2 = none) :
    ∀ d : JSON, hf.replace_ids m (hf.replace_ids m d) = hf.replace_ids m d
  | .null => by simp [hf.replace_ids]
  | .bool _ => by simp [hf.replace_ids]
  | .num _ => by simp [hf.replace_ids]
  | .str _ => by simp [hf.replace_ids]
  | .arr xs => by
      simp [hf.replace_ids, replaceElemsIdemAux h xs]
  | .obj fs => by
      simp [hf.replace_ids, replaceFieldsIdemAux h fs]

theorem replaceFieldsIdemAux {m : List (String × String)}
    (h : ∀ p ∈ m, lookupA m p.2 = none) :
    ∀ fs : List (String × JSON),
      hf.replaceFields m (hf.replaceFields m fs) = hf.replaceFields m fs
  | [] => by simp [hf.replaceFields]
  | (k, .null) :: rest => by
      simp [hf.replaceFields, hf.replace_ids, replaceFieldsIdemAux h rest]
  | (k, .bool b) :: rest => by
      simp [hf.replaceFields, hf.replace_ids, replaceFieldsIdemAux h rest]
  | (k, .num n) :: rest => by
      simp [hf.replaceFields, hf.replace_ids, replaceFieldsIdemAux h rest]
  | (k, .str s) :: rest => by
      simp [hf.replaceFields, subst_idem h s, replaceFieldsIdemAux h rest]
  | (k, .arr xs) :: rest => by
      simp [hf.replaceFields, hf.replace_ids, replaceElemsIdemAux h xs,
        replaceFieldsIdemAux h rest]
  | (k, .obj gs) :: rest => by
      simp [hf.replaceFields, hf.replace_ids, replaceFieldsIdemAux h gs,
        replaceFieldsIdemAux h rest]

theorem replaceElemsIdemAux {m : List (String × String)}
    (h : ∀ p ∈ m, lookupA m p.2 = none) :
    ∀ xs : List JSON,
      hf.replaceElems m (hf.replaceElems m xs) = hf.replaceElems m xs
  | [] => by simp [hf.replaceElems]
  | .null :: rest => by
      simp [hf.replaceElems, hf.replace_ids, replaceElemsIdemAux h rest]
  | .bool b :: rest => by
      simp [hf.replaceElems, hf.replace_ids, replaceElemsIdemAux h rest]
  | .num n :: rest => by
      simp [hf.replaceElems, hf.replace_ids, replaceElemsIdemAux h rest]
  | .str s :: rest => by
      simp [hf.replaceElems, subst_idem h s, replaceElemsIdemAux h rest]
  | .arr xs :: rest => by
      simp [hf.replaceElems, hf.replace_ids, replaceElemsIdemAux h xs,
        replaceElemsIdemAux h rest]
  | .obj gs :: rest => by
      simp [hf.replaceElems, hf.replace_ids, replaceFieldsIdemAux h gs,
        replaceElemsIdemAux h rest]
end

mutual
theorem replaceIdsAgreeAux (m : List (String × String)) :
    ∀ d : JSON, listSafe m d = true → hf.replace_ids m d = mi.replace_ids m d
  | .null, _ => by simp [hf.replace_ids, mi.replace_ids]
  | .bool _, _ => by simp [hf.replace_ids, mi.replace_ids]
  | .num _, _ => by simp [hf.replace_ids, mi.replace_ids]
  | .str _, _ => by simp [hf.replace_ids, mi.replace_ids]
  | .arr xs, h => by
      rw [listSafe] at h
      simp [hf.replace_ids, mi.replace_ids, replaceElemsAgreeAux m xs h]
  | .obj fs, h => by
      rw [listSafe] at h
      simp [hf.replace_ids, mi.replace_ids, replaceFieldsAgreeAux m fs h]

theorem replaceFieldsAgreeAux (m : List (String × String)) :
    ∀ fs : List (String × JSON), listSafeFields m fs = true →
      hf.replaceFields m fs = mi.replaceFieldsM m fs
  | [], _ => by simp [hf.replaceFields, mi.replaceFieldsM]
  | (k, .null) :: rest, h => by
      rw [listSafeFields, Bool.and_eq_true] at h
      simp [hf.replaceFields, mi.replaceFieldsM, hf.replace_ids,
        mi.replace_ids, replaceFieldsAgreeAux m rest h.2]
  | (k, .bool b) :: rest, h => by
      rw [listSafeFields, Bool.and_eq_true] at h
      simp [hf.replaceFields, mi.replaceFieldsM, hf.replace_ids,
        mi.replace_ids, replaceFieldsAgreeAux m rest h.2]
  | (k, .num n) :: rest, h => by
      rw [listSafeFields, Bool.and_eq_true] at h
      simp [hf.replaceFields, mi.replaceFieldsM, hf.replace_ids,
        mi.replace_ids, replaceFieldsAgreeAux m rest h.2]
  | (k, .str s) :: rest, h => by
      rw [listSafeFields, Bool.and_eq_true] at h
      simp [hf.replaceFields, mi.replaceFieldsM,
        replaceFieldsAgreeAux m rest h.2]
  | (k, .arr xs) :: rest, h => by
      rw [listSafeFields, Bool.and_eq_true] at h
      have h1 : listSafeElems m xs = true := by
        have := h.1
        rwa [listSafe] at this
      simp [hf.replaceFields, mi.replaceFieldsM, hf.replace_ids,
        mi.replace_ids, replaceElemsAgreeAux m xs h1,
        replaceFieldsAgreeAux m rest h.2]
  | (k, .obj gs) :: rest, h => by
      rw [listSafeFields, Bool.and_eq_true] at h
      have h1 : listSafeFields m gs = true := by
        have := h.1
        rwa [listSafe] at this
      simp [hf.replaceFields, mi.replaceFieldsM, hf.replace_ids,
        mi.replace_ids, replaceFieldsAgreeAux m gs h1,
        replaceFieldsAgreeAux m rest h.2]

theorem replaceElemsAgreeAux (m : List (String × String)) :
    ∀ xs : List JSON, listSafeElems m xs = true →
      hf.replaceElems m xs = mi.replaceElemsM m xs
  | [], _ => by simp [hf.replaceElems, mi.replaceElemsM]
  | .null :: rest, h => by
      simp only [listSafeElems, Bool.and_eq_true] at h
      simp [hf.replaceElems, mi.replaceElemsM, hf.replace_ids,
        mi.replace_ids, replaceElemsAgreeAux m rest h.2]
  | .bool b :: rest, h => by
      simp only [listSafeElems, Bool.and_eq_true] at h
      simp [hf.replaceElems, mi.replaceElemsM, hf.replace_ids,
        mi.replace_ids, replaceElemsAgreeAux m rest h.2]
  | .num n :: rest, h => by
      simp only [listSafeElems, Bool.and_eq_true] at h
      simp [hf.replaceElems, mi.replaceElemsM, hf.replace_ids,
        mi.replace_ids, replaceElemsAgreeAux m rest h.2]
  | .str s :: rest, h => by
      simp only [listSafeElems, Bool.and_eq_true] at h
      have h1 : lookupA m s = none := by
        cases hl : lookupA m s with
        | none => rfl
        | some t => rw [hl] at h; simp at h
      simp [hf.replaceElems, mi.replaceElemsM, mi.replace_ids, hf.subst, h1,
        replaceElemsAgreeAux m rest h.2]
  | .arr xs :: rest, h => by
      simp only [listSafeElems, Bool.and_eq_true] at h
      have h1 : listSafeElems m xs = true := by
        have := h.1
        rwa [listSafe] at this
      simp [hf.replaceElems, mi.replaceElemsM, hf.replace_ids,
        mi.replace_ids, replaceElemsAgreeAux m xs h1,
        replaceElemsAgreeAux m rest h.2]
  | .obj gs :: rest, h => by
      simp only [listSafeElems, Bool.and_eq_true] at h
      have h1 : listSafeFields m gs = true := by
        have := h.1
        rwa [listSafe] at this
      simp [hf.replaceElems, mi.replaceElemsM, hf.replace_ids,
        mi.replace_ids, replaceFieldsAgreeAux m gs h1,
        replaceElemsAgreeAux m rest h.2]
end

/-- C1 (corrected): for every substitution table and every JSON value, each
string occurrence at a replaceable position (dictionary value or list
element) is mapped through the table by replace_ids — an occurrence equal to
a table key becomes the mapped main id, any other occurrence is unchanged —
and, provided no mapped-to id of the table is itself a key of the table, no
occurrence of a table key remains.  Without that proviso a chained table
leaves a key in place (see the counterexample). -/
theorem C1_replace_ids_occurrences (m : List (String × String))
    (h : ∀ p ∈ m, lookupA m p.2 = none) (d : JSON) :
    strOccs (hf.replace_ids m d) = (strOccs d).map (hf.subst m) ∧
      ∀ s ∈ strOccs (hf.replace_ids m d), lookupA m s = none := by
  refine ⟨strOccs_replace m d, ?_⟩
  intro s hs
  rw [strOccs_replace m d] at hs
  obtain ⟨t, _, rfl⟩ := List.mem_map.mp hs
  unfold hf.subst
  cases hl : lookupA m t with
  | none => exact hl
  | some v => exact h (t, v) (lookupA_mem hl)

/-- Witness for C1_replace_ids_occurrences at a concrete table and value. -/
theorem C1_replace_ids_occurrences_witness :
    (∀ p ∈ [("a", "b")], lookupA [("a", "b")] p.2 = none) ∧
      (strOccs (hf.replace_ids [("a", "b")]
          (.obj [("x", .str "a"), ("y", .arr [.str "z"])])) =
        (strOccs (JSON.obj [("x", .str "a"), ("y", .arr [.str "z"])])).map
          (hf.subst [("a", "b")]) ∧
      ∀ s ∈ strOccs (hf.replace_ids [("a", "b")]
          (.obj [("x", .str "a"), ("y", .arr [.str "z"])])),
        lookupA [("a", "b")] s = none) :=
  ⟨by decide, C1_replace_ids_occurrences [("a", "b")] (by decide)
      (.obj [("x", .str "a"), ("y", .arr [.str "z"])])⟩

/-- Counterexample to C1 as stated: with the chained table a ↦ b, b ↦ c, the
single pass turns the occurrence "a" into "b", and "b" is a key of the table,
so an occurrence of a table key remains. -/
theorem C1_counterexample :
    hf.replace_ids [("a", "b"), ("b", "c")] (.arr [.str "a"]) =
        .arr [.str "b"] ∧
      (lookupA [("a", "b"), ("b", "c")] "b").isSome = true := by
  constructor
  · rfl
  · decide

/-- C2 (corrected): replace_ids is idempotent for every table whose mapped-to
main ids are not themselves keys of the table.  For a table that maps a
feature id onto a string that is again a key (possible only when a main `_id`
equals some feature `_id`), a second pass substitutes again and idempotence
fails (see the counterexample). -/
theorem C2_replace_ids_idempotent (m : List (String × String))
    (h : ∀ p ∈ m, lookupA m p.2 = none) (d : JSON) :
    hf.replace_ids m (hf.replace_ids m d) = hf.replace_ids m d :=
  replaceIdsIdemAux h d

/-- Witness for C2_replace_ids_idempotent at a concrete table and value. -/
theorem C2_replace_ids_idempotent_witness :
    (∀ p ∈ [("a", "b")], lookupA [("a", "b")] p.2 = none) ∧
      hf.replace_ids [("a", "b")]
          (hf.replace_ids [("a", "b")] (.arr [.str "a", .num 3])) =
        hf.replace_ids [("a", "b")] (.arr [.str "a", .num 3]) :=
  ⟨by decide, C2_replace_ids_idempotent [("a", "b")] (by decide)
      (.arr [.str "a", .num 3])⟩

/-- Counterexample to C2 as stated (idempotence for arbitrary tables,
chained tables included): with the table a ↦ b, b ↦ c, one pass over ["a"]
gives ["b"], a second pass gives ["c"]. -/
theorem C2_counterexample :
    hf.replace_ids [("a", "b"), ("b", "c")]
        (hf.replace_ids [("a", "b"), ("b", "c")] (.arr [.str "a"])) ≠
      hf.replace_ids [("a", "b"), ("b", "c")] (.arr [.str "a"]) := by
  decide

/-- C10 (corrected): the two replace_ids variants agree on every JSON value
in which no list contains a string element that is a key of the table; on a
list with such an element they differ — the helper_functions variant replaces
it, the map_ids variant leaves it (see the counterexample). -/
theorem C10_replace_ids_variants_agree (m : List (String × String)) (d : JSON)
    (h : listSafe m d = true) :
    hf.replace_ids m d = mi.replace_ids m d :=
  replaceIdsAgreeAux m d h

/-- Witness for C10_replace_ids_variants_agree at a concrete table and
value. -/
theorem C10_replace_ids_variants_agree_witness :
    listSafe [("a", "b")] (.obj [("x", .str "a"), ("y", .arr [.num 1])]) = true ∧
      hf.replace_ids [("a", "b")] (.obj [("x", .str "a"), ("y", .arr [.num 1])]) =
        mi.replace_ids [("a", "b")] (.obj [("x", .str "a"), ("y", .arr [.num 1])]) :=
  ⟨by decide, C10_replace_ids_variants_agree [("a", "b")]
      (.obj [("x", .str "a"), ("y", .arr [.num 1])]) (by decide)⟩

/-- Counterexample to C10 as stated: on a list whose element is the table key
"a", the helper_functions variant substitutes and the map_ids variant does
not. -/
theorem C10_counterexample :
    hf.replace_ids [("a", "b")] (.obj [("k", .arr [.str "a"])]) ≠
      mi.replace_ids [("a", "b")] (.obj [("k", .arr [.str "a"])]) := by
  decide

theorem lookupA_append {α : Type} (l1 l2 : List (String × α)) (k : String) :
    lookupA (l1 ++ l2) k =
      match lookupA l1 k with
      | some v => some v
      | none => lookupA l2 k := by
  induction l1 with
  | nil => simp [lookupA]
  | cons p rest ih =>
      obtain ⟨k2, v2⟩ := p
      by_cases hk : k2 = k
      · subst hk
        simp [lookupA]
      · simp only [List.cons_append, lookupA, if_neg hk]
        exact ih

theorem buildMappingAux_lookup {α : Type} (mk : List (String × JSON) → α) :
    ∀ (objs : List (List (String × JSON))) (mapping : List (String × α))
      (r : String),
      lookupA (hf.buildMappingAux mk objs mapping) r =
        match lookupA mapping r with
        | some e => some e
        | none => (objs.find? (fun fs => hf.refOf fs == some r)).map mk := by
  intro objs
  induction objs with
  | nil =>
      intro mapping r
      cases h : lookupA mapping r <;> simp [hf.buildMappingAux, h]
  | cons fs rest ih =>
      intro mapping r
      cases href : hf.refOf fs with
      | none =>
          have hstep : hf.buildMappingAux mk (fs :: rest) mapping =
              hf.buildMappingAux mk rest mapping := by
            rw [hf.buildMappingAux, href]
          rw [hstep, ih]
          have hfind : (hf.refOf fs == some r) = false := by
            simp [href]
          rw [List.find?_cons_of_neg _ (by simp [hfind])]
      | some r2 =>
          have hstep : hf.buildMappingAux mk (fs :: rest) mapping =
              hf.buildMappingAux mk rest
                (if (lookupA mapping r2).isSome then mapping
                 else mapping ++ [(r2, mk fs)]) := by
            rw [hf.buildMappingAux, href]
          rw [hstep]
          by_cases hrr : r2 = r
          · subst hrr
            have hfind : (hf.refOf fs == some r2) = true := by
              simp [href]
            rw [List.find?_cons_of_pos _ (by simp [hfind])]
            cases hm : (lookupA mapping r2).isSome with
            | true =>
                rw [if_pos rfl]
                rw [ih]
                obtain ⟨e, he⟩ := Option.isSome_iff_exists.mp hm
                simp [he]
            | false =>
                rw [if_neg (by simp)]
                rw [ih]
                have hnone : lookupA mapping r2 = none := by
                  cases hmm : lookupA mapping r2 with
                  | none => rfl
                  | some e => rw [hmm] at hm; simp at hm
                rw [lookupA_append]
                simp [hnone, lookupA]
          · have hfind : (hf.refOf fs == some r) = false := by
              simp [href, hrr]
            rw [List.find?_cons_of_neg _ (by simp [hfind])]
            cases hm : (lookupA mapping r2).isSome with
            | true =>
                rw [if_pos rfl]
                exact ih mapping r
            | false =>
                rw [if_neg (by simp)]
                rw [ih, lookupA_append]
                cases hmm : lookupA mapping r with
                | none => simp [lookupA, hrr]
                | some e => simp

/-- C4 (corrected): both load_json_files variants record, for each truthy
referenceId, the object FIRST seen in file-enumeration and extraction order
(`if reference_id and reference_id not in mapping` skips every later
object), not the last-seen one: the identifier map at a referenceId is the
entry made from the first extracted object bearing it. -/
theorem C4_load_json_files_first_seen (files : List JSON) (r : String) :
    lookupA (hf.load_json_files files) r =
        (((files.map hf.extract_objects).flatten).find?
          (fun fs => hf.refOf fs == some r)).map hf.mkEntry ∧
      lookupA (mi.load_json_files files) r =
        ((files.map hf.extract_objects).flatten).find?
          (fun fs => hf.refOf fs == some r) := by
  constructor
  · rw [hf.load_json_files, buildMappingAux_lookup]
    simp [lookupA]
  · rw [mi.load_json_files, buildMappingAux_lookup]
    cases ((files.map hf.extract_objects).flatten).find?
        (fun fs => hf.refOf fs == some r) with
    | none => simp [lookupA]
    | some fs => simp [lookupA]

/-- Counterexample to C4 as stated: one tree holding two objects with
referenceId "r", `_id` "A" first and `_id` "B" second; the map records "A"
(first-seen), while the claim says the last-seen "B". -/
theorem C4_counterexample :
    (lookupA
        (hf.load_json_files
          [.arr [.obj [("referenceId", .str "r"), ("_id", .str "A")],
                 .obj [("referenceId", .str "r"), ("_id", .str "B")]]])
        "r").map (fun e => lookupA e "_id") = some (some (.str "A")) ∧
      JSON.str "A" ≠ JSON.str "B" := by
  constructor
  · rfl
  · decide

/-- Lookup in the JSON-keyed id table built by create_id_mapping. -/
theorem lookupD_eq_none {acc : List (JSON × JSON)} {k : JSON}
    (h : k ∉ acc.map Prod.fst) : hf.lookupD acc k = none := by
  induction acc with
  | nil => rfl
  | cons p rest ih =>
      obtain ⟨k2, v2⟩ := p
      simp only [List.map_cons, List.mem_cons] at h
      push_neg at h
      simp only [hf.lookupD]
      rw [if_neg (by exact fun hh => h.1 hh.symm)]
      exact ih h.2

theorem setKeyD_fresh {acc : List (JSON × JSON)} {k v : JSON}
    (h : k ∉ acc.map Prod.fst) : hf.setKeyD acc k v = acc ++ [(k, v)] := by
  induction acc with
  | nil => rfl
  | cons p rest ih =>
      obtain ⟨k2, v2⟩ := p
      simp only [List.map_cons, List.mem_cons] at h
      push_neg at h
      simp only [hf.setKeyD]
      rw [if_neg (by exact fun hh => h.1 hh.symm)]
      rw [ih h.2]
      simp

/-- Qualification of one main-mapping entry in create_id_mapping: the feature
mapping has a truthy entry under the same referenceId and both entries have
an `_id` key; the produced pair is featureId ↦ mainId. -/
def qualifyC6 (feature : List (String × List (String × JSON)))
    (p : String × List (String × JSON)) : Option (JSON × JSON) :=
  match lookupA feature p.1 with
  | some fo =>
      if fo = [] then none
      else
        match lookupA p.2 "_id", lookupA fo "_id" with
        | some mid, some fid => some (fid, mid)
        | _, _ => none
  | none => none

theorem createIdMappingAux_eq (feature : List (String × List (String × JSON))) :
    ∀ (main : List (String × List (String × JSON)))
      (acc : List (JSON × JSON)),
      (acc.map Prod.fst ++
        (main.filterMap (qualifyC6 feature)).map Prod.fst).Nodup →
      hf.createIdMappingAux feature main acc =
        acc ++ main.filterMap (qualifyC6 feature) := by
  intro main
  induction main with
  | nil => intro acc h; simp [hf.createIdMappingAux]
  | cons p rest ih =>
      obtain ⟨ref, mobj⟩ := p
      intro acc h
      cases hq : qualifyC6 feature (ref, mobj) with
      | none =>
          have hstep : hf.createIdMappingAux feature ((ref, mobj) :: rest) acc =
              hf.createIdMappingAux feature rest acc := by
            rw [hf.createIdMappingAux]
            unfold qualifyC6 at hq
            cases hfo : lookupA feature ref with
            | none => simp only [hfo]
            | some fo =>
                simp only [hfo] at hq ⊢
                by_cases hfe : fo = []
                · simp [hfe]
                · rw [if_neg hfe] at hq
                  rw [if_neg hfe]
                  cases hm1 : lookupA mobj "_id" with
                  | none => simp only [hm1]
                  | some mid =>
                      cases hm2 : lookupA fo "_id" with
                      | none => simp only [hm1, hm2]
                      | some fid =>
                          simp only [hm1, hm2] at hq
                          simp at hq
          rw [hstep, List.filterMap_cons_none hq]
          rw [List.filterMap_cons_none hq] at h
          exact ih acc h
      | some q =>
          obtain ⟨fid, mid⟩ := q
          rw [List.filterMap_cons_some hq] at h
          have hfresh : fid ∉ acc.map Prod.fst := by
            intro hmem
            have h2 := h
            rw [List.nodup_append] at h2
            exact h2.2.2 hmem (by simp)
          have hstep : hf.createIdMappingAux feature ((ref, mobj) :: rest) acc =
              hf.createIdMappingAux feature rest (acc ++ [(fid, mid)]) := by
            rw [hf.createIdMappingAux]
            unfold qualifyC6 at hq
            cases hfo : lookupA feature ref with
            | none => simp only [hfo] at hq; simp at hq
            | some fo =>
                simp only [hfo] at hq ⊢
                by_cases hfe : fo = []
                · rw [if_pos hfe] at hq; simp at hq
                · rw [if_neg hfe] at hq
                  rw [if_neg hfe]
                  cases hm1 : lookupA mobj "_id" with
                  | none => simp only [hm1] at hq; simp at hq
                  | some mid2 =>
                      cases hm2 : lookupA fo "_id" with
                      | none => simp only [hm1, hm2] at hq; simp at hq
                      | some fid2 =>
                          simp only [hm1, hm2] at hq
                          simp only [Option.some_inj, Prod.mk.injEq] at hq
                          obtain ⟨hq1, hq2⟩ := hq
                          subst hq1
                          subst hq2
                          simp only [hm1, hm2]
                          rw [setKeyD_fresh hfresh]
          rw [hstep, List.filterMap_cons_some hq]
          rw [ih (acc ++ [(fid, mid)]) (by simpa using h)]
          simp

/-- C6 (corrected): the table built by create_id_mapping is exactly the
filterMap, over the main mapping in order, of the qualification "the feature
mapping has a truthy entry under the same referenceId and both entries HAVE
an `_id` key" — the `_id` VALUES are not tested for non-emptiness (see the
counterexample).  In particular a referenceId present in only one mapping
contributes no entry, and each referenceId contributes at most one entry.
The hypothesis that the produced feature ids are pairwise distinct holds in
the pipeline, where `_id`s are unique. -/
theorem C6_create_id_mapping_characterisation
    (main feature : List (String × List (String × JSON)))
    (h : ((main.filterMap (qualifyC6 feature)).map Prod.fst).Nodup) :
    hf.create_id_mapping main feature = main.filterMap (qualifyC6 feature) ∧
      ∀ q ∈ hf.create_id_mapping main feature,
        ∃ ref mobj, (ref, mobj) ∈ main ∧
          qualifyC6 feature (ref, mobj) = some q := by
  have heq : hf.create_id_mapping main feature =
      main.filterMap (qualifyC6 feature) := by
    rw [hf.create_id_mapping]
    have := createIdMappingAux_eq feature main [] (by simpa using h)
    simpa using this
  refine ⟨heq, ?_⟩
  intro q hq
  rw [heq] at hq
  obtain ⟨p, hp, hqp⟩ := List.mem_filterMap.mp hq
  exact ⟨p.1, p.2, by simpa using hp, by simpa using hqp⟩

/-- Witness for C6_create_id_mapping_characterisation at concrete mappings:
one referenceId in both mappings, one only in main, one only in feature. -/
theorem C6_create_id_mapping_characterisation_witness :
    ((([("r", [("_id", JSON.str "M")]), ("s", [("_id", JSON.str "M2")])].filterMap
        (qualifyC6 [("r", [("_id", JSON.str "F")]), ("t", [("_id", JSON.str "F2")])])).map
          Prod.fst).Nodup) ∧
      (hf.create_id_mapping
          [("r", [("_id", JSON.str "M")]), ("s", [("_id", JSON.str "M2")])]
          [("r", [("_id", JSON.str "F")]), ("t", [("_id", JSON.str "F2")])] =
        [("r", [("_id", JSON.str "M")]), ("s", [("_id", JSON.str "M2")])].filterMap
          (qualifyC6 [("r", [("_id", JSON.str "F")]), ("t", [("_id", JSON.str "F2")])]) ∧
      ∀ q ∈ hf.create_id_mapping
          [("r", [("_id", JSON.str "M")]), ("s", [("_id", JSON.str "M2")])]
          [("r", [("_id", JSON.str "F")]), ("t", [("_id", JSON.str "F2")])],
        ∃ ref mobj,
          (ref, mobj) ∈ [("r", [("_id", JSON.str "M")]), ("s", [("_id", JSON.str "M2")])] ∧
          qualifyC6 [("r", [("_id", JSON.str "F")]), ("t", [("_id", JSON.str "F2")])]
            (ref, mobj) = some q) :=
  ⟨by decide, C6_create_id_mapping_characterisation
      [("r", [("_id", JSON.str "M")]), ("s", [("_id", JSON.str "M2")])]
      [("r", [("_id", JSON.str "F")]), ("t", [("_id", JSON.str "F2")])] (by decide)⟩

/-- Counterexample to C6 as stated: both `_id` values present but the feature
`_id` is the empty string; the claim says no entry is produced, the code
produces one. -/
theorem C6_counterexample :
    hf.create_id_mapping [("r", [("_id", JSON.str "M")])]
        [("r", [("_id", JSON.str "")])] =
      [(JSON.str "", JSON.str "M")] := by
  rfl

theorem retryAux_passthrough (maxR : Nat) :
    ∀ (k retries : Nat) (c : hf.CallOutcome) (rest : List hf.CallOutcome),
      retries + k ≤ maxR → c ≠ .httpError (some 500) →
      hf.retryAux maxR retries
          (List.replicate k (.httpError (some 500)) ++ c :: rest) =
        some (k + 1, c) := by
  intro k
  induction k with
  | zero =>
      intro retries c rest _ hc
      cases c with
      | ok v => simp [hf.retryAux]
      | httpError s =>
          have hs : s ≠ some 500 := by
            intro hh
            subst hh
            exact hc rfl
          simp [hf.retryAux, hs]
  | succ k ih =>
      intro retries c rest hk hc
      have hle : ¬(retries + 1 > maxR) := by omega
      rw [List.replicate_succ, List.cons_append, hf.retryAux]
      simp only [if_pos rfl, if_neg hle]
      rw [ih (retries + 1) c rest (by omega) hc]
      rfl

theorem retryAux_exhaust (maxR : Nat) :
    ∀ (d retries : Nat) (rest : List hf.CallOutcome),
      retries + d = maxR + 1 → 1 ≤ d →
      hf.retryAux maxR retries
          (List.replicate d (.httpError (some 500)) ++ rest) =
        some (d, .httpError (some 500)) := by
  intro d
  induction d with
  | zero => intro retries rest _ hd; omega
  | succ d ih =>
      intro retries rest hd _
      rw [List.replicate_succ, List.cons_append, hf.retryAux]
      by_cases hgt : retries + 1 > maxR
      · have hd0 : d = 0 := by omega
        subst hd0
        simp [hgt]
      · simp only [if_pos rfl, if_neg hgt]
        rw [ih (retries + 1) rest (by omega) (by omega)]
        rfl

/-- C7 (corrected): the retry decorator retries only an HTTPError whose
response has status exactly 500 (with fixed backoff), up to max_retries
retries, and then propagates it; every other outcome — a return value, an
HTTPError with any other status (other 5xx such as 502/503 included) or with
no response — propagates at once, after the one call that produced it.  The
pair returned by the model is (number of calls made, propagated outcome). -/
theorem C7_retry_only_exact_500 (maxR k : Nat) (c : hf.CallOutcome)
    (rest rest2 : List hf.CallOutcome) (hk : k ≤ maxR)
    (hc : c ≠ .httpError (some 500)) :
    hf.retry_on_500 maxR
        (List.replicate k (.httpError (some 500)) ++ c :: rest) =
      some (k + 1, c) ∧
    hf.retry_on_500 maxR
        (List.replicate (maxR + 1) (.httpError (some 500)) ++ rest2) =
      some (maxR + 1, .httpError (some 500)) := by
  constructor
  · exact retryAux_passthrough maxR k 0 c rest (by omega) hc
  · exact retryAux_exhaust maxR (maxR + 1) 0 rest2 (by omega) (by omega)

/-- Witness for C7_retry_only_exact_500: two 500s, then success, with the
default bound 3. -/
theorem C7_retry_only_exact_500_witness :
    2 ≤ 3 ∧ (hf.CallOutcome.ok 7 ≠ .httpError (some 500)) ∧
      (hf.retry_on_500 3
          (List.replicate 2 (.httpError (some 500)) ++ .ok 7 :: []) =
        some (3, .ok 7) ∧
      hf.retry_on_500 3
          (List.replicate 4 (.httpError (some 500)) ++ []) =
        some (4, .httpError (some 500))) :=
  ⟨by decide, by decide,
    C7_retry_only_exact_500 3 2 (.ok 7) [] [] (by decide) (by decide)⟩

/-- Counterexample to C7 as stated: a 503 — a 5xx status — propagates after a
single call, with no retry, although the next call would have succeeded. -/
theorem C7_counterexample :
    hf.retry_on_500 3 [.httpError (some 503), .ok 7] =
      some (1, .httpError (some 503)) := by
  rfl

theorem downloadPoll_pos :
    ∀ (sizes : List Nat) (prev n : Nat),
      cc.downloadPoll prev sizes = some n → 1 ≤ n := by
  intro sizes
  induction sizes with
  | nil => intro prev n h; simp [cc.downloadPoll] at h
  | cons c rest ih =>
      intro prev n h
      rw [cc.downloadPoll] at h
      by_cases h0 : c = 0
      · rw [if_pos h0] at h
        obtain ⟨n1, _, rfl⟩ := Option.map_eq_some'.mp h
        omega
      · rw [if_neg h0] at h
        by_cases hp : prev = 0
        · rw [if_pos hp] at h
          obtain ⟨n1, _, rfl⟩ := Option.map_eq_some'.mp h
          omega
        · rw [if_neg hp] at h
          by_cases hc : c ≠ prev
          · rw [if_pos hc] at h
            obtain ⟨n1, _, rfl⟩ := Option.map_eq_some'.mp h
            omega
          · rw [if_neg hc] at h
            cases h
            omega

theorem acceptAt_nil (prev n : Nat) : acceptAt prev [] n = false := by
  cases n <;> simp [acceptAt]

theorem acceptAt_cons_one (prev c : Nat) (rest : List Nat) :
    acceptAt prev (c :: rest) 1 = (decide (c ≠ 0) && (c == prev)) := by
  simp [acceptAt, lastNZ]

theorem acceptAt_cons_succ (prev c : Nat) (rest : List Nat) (m : Nat)
    (hm : 1 ≤ m) :
    acceptAt prev (c :: rest) (m + 1) =
      acceptAt (if c = 0 then prev else c) rest m := by
  obtain ⟨m2, rfl⟩ : ∃ m2, m = m2 + 1 := ⟨m - 1, by omega⟩
  simp only [acceptAt, lastNZ, List.take_succ_cons, Nat.add_sub_cancel,
    List.get?_cons_succ]
  cases hr : rest.get? m2 <;> simp [hr]

theorem downloadPoll_sound :
    ∀ (sizes : List Nat) (prev n : Nat),
      cc.downloadPoll prev sizes = some n →
      acceptAt prev sizes n = true ∧ ∀ m, m < n → acceptAt prev sizes m = false := by
  intro sizes
  induction sizes with
  | nil => intro prev n h; simp [cc.downloadPoll] at h
  | cons c rest ih =>
      intro prev n h
      rw [cc.downloadPoll] at h
      by_cases h0 : c = 0
      · rw [if_pos h0] at h
        obtain ⟨n1, hdp, rfl⟩ := Option.map_eq_some'.mp h
        have hn1 : 1 ≤ n1 := downloadPoll_pos rest prev n1 hdp
        obtain ⟨ha, hmin⟩ := ih prev n1 hdp
        constructor
        · rw [acceptAt_cons_succ prev c rest n1 hn1, if_pos h0]
          exact ha
        · intro m hm
          match m, hm with
          | 0, _ => rfl
          | 1, hm =>
              rw [acceptAt_cons_one]
              simp [h0]
          | m2 + 2, hm =>
              rw [acceptAt_cons_succ prev c rest (m2 + 1) (by omega), if_pos h0]
              exact hmin (m2 + 1) (by omega)
      · rw [if_neg h0] at h
        by_cases hp : prev = 0
        · rw [if_pos hp] at h
          obtain ⟨n1, hdp, rfl⟩ := Option.map_eq_some'.mp h
          have hn1 : 1 ≤ n1 := downloadPoll_pos rest c n1 hdp
          obtain ⟨ha, hmin⟩ := ih c n1 hdp
          constructor
          · rw [acceptAt_cons_succ prev c rest n1 hn1, if_neg h0]
            exact ha
          · intro m hm
            match m, hm with
            | 0, _ => rfl
            | 1, hm =>
                rw [acceptAt_cons_one]
                subst hp
                simp [h0]
            | m2 + 2, hm =>
                rw [acceptAt_cons_succ prev c rest (m2 + 1) (by omega), if_neg h0]
                exact hmin (m2 + 1) (by omega)
        · rw [if_neg hp] at h
          by_cases hcp : c ≠ prev
          · rw [if_pos hcp] at h
            obtain ⟨n1, hdp, rfl⟩ := Option.map_eq_some'.mp h
            have hn1 : 1 ≤ n1 := downloadPoll_pos rest c n1 hdp
            obtain ⟨ha, hmin⟩ := ih c n1 hdp
            constructor
            · rw [acceptAt_cons_succ prev c rest n1 hn1, if_neg h0]
              exact ha
            · intro m hm
              match m, hm with
              | 0, _ => rfl
              | 1, hm =>
                  rw [acceptAt_cons_one]
                  simp [hcp]
              | m2 + 2, hm =>
                  rw [acceptAt_cons_succ prev c rest (m2 + 1) (by omega), if_neg h0]
                  exact hmin (m2 + 1) (by omega)
          · rw [if_neg hcp] at h
            push_neg at hcp
            cases h
            constructor
            · rw [acceptAt_cons_one]
              simp [h0, hcp, hp]
            · intro m hm
              match m, hm with
              | 0, _ => rfl

theorem downloadPoll_complete :
    ∀ (sizes : List Nat) (prev n : Nat),
      acceptAt prev sizes n = true →
      ∃ k, k ≤ n ∧ cc.downloadPoll prev sizes = some k := by
  intro sizes
  induction sizes with
  | nil => intro prev n h; rw [acceptAt_nil] at h; cases h
  | cons c rest ih =>
      intro prev n h
      match n with
      | 0 => cases h
      | 1 =>
          rw [acceptAt_cons_one] at h
          rw [Bool.and_eq_true] at h
          have h0 : c ≠ 0 := by simpa using h.1
          have hcp : c = prev := by simpa using h.2
          refine ⟨1, le_refl 1, ?_⟩
          rw [cc.downloadPoll, if_neg h0, if_neg (by omega), if_neg (by simp [hcp])]
      | m2 + 2 =>
          rw [acceptAt_cons_succ prev c rest (m2 + 1) (by omega)] at h
          obtain ⟨k, hk, hdp⟩ := ih (if c = 0 then prev else c) (m2 + 1) h
          by_cases h0 : c = 0
          · refine ⟨k + 1, by omega, ?_⟩
            rw [cc.downloadPoll, if_pos h0]
            rw [if_pos h0] at hdp
            rw [hdp]
            rfl
          · rw [if_neg h0] at hdp
            by_cases hp : prev = 0
            · refine ⟨k + 1, by omega, ?_⟩
              rw [cc.downloadPoll, if_neg h0, if_pos hp, hdp]
              rfl
            · by_cases hcp : c ≠ prev
              · refine ⟨k + 1, by omega, ?_⟩
                rw [cc.downloadPoll, if_neg h0, if_neg hp, if_pos hcp, hdp]
                rfl
              · refine ⟨1, by omega, ?_⟩
                rw [cc.downloadPoll, if_neg h0, if_neg hp, if_neg hcp]

/-- C8 (corrected): the download loop accepts exactly at the first check
whose size is non-zero and equals the most recent PRECEDING NON-ZERO reading
(the baseline `prev_size`); zero readings neither accept nor reset the
baseline.  For the size sequence [0, 120, 120] it accepts at the third check,
after the second 120 reading and not the first, as the claim's example says;
but when a zero reading separates two equal non-zero readings the loop still
accepts, against the claim's "immediately preceding observed size" (see the
counterexample). -/
theorem C8_download_poll_acceptance :
    (∀ (prev : Nat) (sizes : List Nat) (n : Nat),
        cc.downloadPoll prev sizes = some n ↔
          acceptAt prev sizes n = true ∧
            ∀ m, m < n → acceptAt prev sizes m = false) ∧
      cc.downloadPoll 0 [0, 120, 120] = some 3 := by
  constructor
  · intro prev sizes n
    constructor
    · exact downloadPoll_sound sizes prev n
    · rintro ⟨ha, hmin⟩
      obtain ⟨k, hk, hdp⟩ := downloadPoll_complete sizes prev n ha
      rcases Nat.lt_or_ge k n with hlt | hge
      · have := (downloadPoll_sound sizes prev k hdp).1
        rw [hmin k hlt] at this
        cases this
      · have : k = n := by omega
        subst this
        exact hdp
  · rfl

/-- Counterexample to C8 as stated: sizes [120, 0, 120].  The loop accepts at
the third check, whose immediately preceding observed size was 0, not 120 —
the two equal non-zero readings are not consecutive, yet the artifact is
accepted, because the zero reading did not reset prev_size. -/
theorem C8_counterexample :
    cc.downloadPoll 0 [120, 0, 120] = some 3 ∧
      List.get? [120, 0, 120] 2 = some 120 ∧
      List.get? [120, 0, 120] 1 = some 0 ∧ (120 : Nat) ≠ 0 := by
  refine ⟨rfl, rfl, rfl, by decide⟩

/-- C9 (confirmed): deploy_agent raises before any upload when the snapshot
directory holds no .csnap file, raises before any upload when it holds more
than one, and uploads exactly the unique .csnap file otherwise (the `.ok`
payload is the uploaded file, `.error` means the raise happened before the
upload). -/
theorem C9_deploy_agent_csnap_cardinality (files : List String) :
    ((files.filter (fun f => strEndsWith f ".csnap")).length = 0 →
        cc.deploy_agent files =
          .error "No .csnap file found in the snapshot directory.") ∧
      ((files.filter (fun f => strEndsWith f ".csnap")).length > 1 →
        cc.deploy_agent files =
          .error
            "Multiple .csnap files found in the snapshot directory. There should be only one.") ∧
      (∀ f, files.filter (fun f2 => strEndsWith f2 ".csnap") = [f] →
        cc.deploy_agent files = .ok f) := by
  refine ⟨?_, ?_, ?_⟩
  · intro h
    rw [cc.deploy_agent]
    rw [List.length_eq_zero] at h
    simp [h]
  · intro h
    rw [cc.deploy_agent]
    have hne : (files.filter (fun f => strEndsWith f ".csnap")).isEmpty = false := by
      cases hh : files.filter (fun f => strEndsWith f ".csnap") with
      | nil => rw [hh] at h; simp at h
      | cons a l => simp [hh]
    rw [if_neg (by simp [hne]), if_pos h]
  · intro f h
    rw [cc.deploy_agent, h]
    simp

/-- Witness for C9_deploy_agent_csnap_cardinality: a directory with one
.csnap file and one other file. -/
theorem C9_deploy_agent_csnap_cardinality_witness :
    ["x.csnap", "y.txt"].filter (fun f2 => strEndsWith f2 ".csnap") = ["x.csnap"] ∧
      cc.deploy_agent ["x.csnap", "y.txt"] = .ok "x.csnap" := by
  refine ⟨by decide, ?_⟩
  exact (C9_deploy_agent_csnap_cardinality ["x.csnap", "y.txt"]).2.2
    "x.csnap" (by decide)

/-- C5 (corrected): in a pair of lexicons matched by referenceId, a feature
value whose keyphrase is truthy (for a string: non-empty) and compares
`==`-equal to the keyphrase of some main value adopts the `_id` of the FIRST
such main value; a feature value with no `==`-equal main keyphrase, or with a
falsy or missing keyphrase — even one whose falsy keyphrase equals a main
value's keyphrase, see the counterexample — keeps its own `_id` and is left
entirely unchanged. -/
theorem C5_replace_lexicon_value_matching
    (mvs : List (List (String × JSON))) (fv mv : List (String × JSON))
    (kp mid : JSON) :
    (lookupA fv "keyphrase" = some kp → truthy kp = true →
        hf.findKeyphraseMatch mvs kp = some mv →
        lookupA mv "_id" = some mid →
        hf.replace_lexicon_value mvs fv = some (setKeyA fv "_id" mid) ∧
          lookupA (setKeyA fv "_id" mid) "_id" = some mid) ∧
      (lookupA fv "keyphrase" = some kp → truthy kp = true →
        hf.findKeyphraseMatch mvs kp = none →
        hf.replace_lexicon_value mvs fv = some fv) ∧
      (lookupA fv "keyphrase" = some kp → truthy kp = false →
        hf.replace_lexicon_value mvs fv = some fv) ∧
      (lookupA fv "keyphrase" = none →
        hf.replace_lexicon_value mvs fv = some fv) := by
  refine ⟨?_, ?_, ?_, ?_⟩
  · intro hkp htr hfind hid
    rw [hf.replace_lexicon_value]
    simp only [hkp, htr, hfind, hid, if_pos rfl]
    exact ⟨rfl, lookupA_setKeyA_same fv "_id" mid⟩
  · intro hkp htr hfind
    rw [hf.replace_lexicon_value]
    simp only [hkp, htr, hfind, if_pos rfl]
    simp
  · intro hkp htr
    rw [hf.replace_lexicon_value]
    simp only [hkp, htr]
    rfl
  · intro hkp
    rw [hf.replace_lexicon_value]
    simp only [hkp]

/-- Witness for C5_replace_lexicon_value_matching: one main value with
keyphrase "red" donates its id M1 to the feature value with keyphrase
"red". -/
theorem C5_replace_lexicon_value_matching_witness :
    lookupA [("_id", JSON.str "F1"), ("keyphrase", JSON.str "red")]
        "keyphrase" = some (.str "red") ∧
      truthy (.str "red") = true ∧
      hf.findKeyphraseMatch [[("_id", JSON.str "M1"), ("keyphrase", JSON.str "red")]]
        (.str "red") = some [("_id", JSON.str "M1"), ("keyphrase", JSON.str "red")] ∧
      lookupA [("_id", JSON.str "M1"), ("keyphrase", JSON.str "red")] "_id" =
        some (.str "M1") ∧
      (hf.replace_lexicon_value
          [[("_id", JSON.str "M1"), ("keyphrase", JSON.str "red")]]
          [("_id", JSON.str "F1"), ("keyphrase", JSON.str "red")] =
        some (setKeyA [("_id", JSON.str "F1"), ("keyphrase", JSON.str "red")]
          "_id" (.str "M1")) ∧
      lookupA (setKeyA [("_id", JSON.str "F1"), ("keyphrase", JSON.str "red")]
        "_id" (.str "M1")) "_id" = some (.str "M1")) := by
  have hfind : hf.findKeyphraseMatch
      [[("_id", JSON.str "M1"), ("keyphrase", JSON.str "red")]] (.str "red") =
      some [("_id", JSON.str "M1"), ("keyphrase", JSON.str "red")] := by
    rw [hf.findKeyphraseMatch]
    simp [List.find?, lookupA, pyEq.eq_def]
  refine ⟨rfl, rfl, hfind, rfl, ?_⟩
  exact (C5_replace_lexicon_value_matching
      [[("_id", JSON.str "M1"), ("keyphrase", JSON.str "red")]]
      [("_id", JSON.str "F1"), ("keyphrase", JSON.str "red")]
      [("_id", JSON.str "M1"), ("keyphrase", JSON.str "red")]
      (.str "red") (.str "M1")).1 rfl rfl hfind rfl

/-- Counterexample to C5 as stated: feature and main value both carry the
keyphrase "" — equal keyphrases — yet the feature value keeps its `_id` F1,
because `if not feature_keyphrase: continue` skips a falsy keyphrase. -/
theorem C5_counterexample :
    hf.replace_lexicon_value
        [[("_id", JSON.str "M1"), ("keyphrase", JSON.str "")]]
        [("_id", JSON.str "F1"), ("keyphrase", JSON.str "")] =
      some [("_id", JSON.str "F1"), ("keyphrase", JSON.str "")] ∧
      pyEq (.str "") (.str "") = true ∧ JSON.str "F1" ≠ JSON.str "M1" := by
  refine ⟨rfl, by simp [pyEq.eq_def], by decide⟩

theorem lookupA_copyIfPresent_same (B dst : List (String × JSON)) (k : String) :
    lookupA (hf.copyIfPresent B dst k) k =
      match lookupA B k with
      | some v => some v
      | none => lookupA dst k := by
  rw [hf.copyIfPresent]
  cases hb : lookupA B k with
  | none => rfl
  | some v => exact lookupA_setKeyA_same dst k v

theorem lookupA_copyIfPresent_other (B dst : List (String × JSON))
    (k k2 : String) (h : k ≠ k2) :
    lookupA (hf.copyIfPresent B dst k) k2 = lookupA dst k2 := by
  rw [hf.copyIfPresent]
  cases hb : lookupA B k with
  | none => rfl
  | some v => exact lookupA_setKeyA_other dst k k2 v h

theorem noDupKeys_copyIfPresent {dst : List (String × JSON)}
    (B : List (String × JSON)) (k : String) (h : noDupKeys dst = true) :
    noDupKeys (hf.copyIfPresent B dst k) = true := by
  rw [hf.copyIfPresent]
  cases hb : lookupA B k with
  | none => exact h
  | some v => exact noDupKeys_setKeyA k v h

theorem wfFields_setKeyA {fs : List (String × JSON)} {k : String} {v : JSON}
    (hv : wfJ v = true) (h : wfFields fs = true) :
    wfFields (setKeyA fs k v) = true := by
  induction fs with
  | nil => simp [setKeyA, wfFields, hv]
  | cons p rest ih =>
      obtain ⟨k2, v2⟩ := p
      rw [wfFields, Bool.and_eq_true] at h
      rw [setKeyA]
      split
      · rw [wfFields, Bool.and_eq_true]
        exact ⟨hv, h.2⟩
      · rw [wfFields, Bool.and_eq_true]
        exact ⟨h.1, ih h.2⟩

theorem wfFields_copyIfPresent {dst : List (String × JSON)}
    {B : List (String × JSON)} (k : String) (hB : wfFields B = true)
    (h : wfFields dst = true) :
    wfFields (hf.copyIfPresent B dst k) = true := by
  rw [hf.copyIfPresent]
  cases hb : lookupA B k with
  | none => exact h
  | some v =>
      exact wfFields_setKeyA (wfFields_mem hB (k, v) (lookupA_mem hb)) h

theorem lookupA_copyIfBoth_other (src dst : List (String × JSON))
    (k k2 : String) (h : k ≠ k2) :
    lookupA (mi.copyIfBoth src dst k) k2 = lookupA dst k2 := by
  rw [mi.copyIfBoth]
  cases hd : lookupA dst k <;> cases hs : lookupA src k <;>
    simp [lookupA_setKeyA_other dst k k2 _ h]

theorem lookupA_copyIfBoth_same (src dst : List (String × JSON)) (k : String) :
    lookupA (mi.copyIfBoth src dst k) k =
      match lookupA dst k, lookupA src k with
      | some _, some v => some v
      | _, _ => lookupA dst k := by
  rw [mi.copyIfBoth]
  cases hd : lookupA dst k <;> cases hs : lookupA src k <;>
    simp [hd, lookupA_setKeyA_same]

/-- Python `==` between two `d.get(k)` results (None compares equal only to
None): the way two objects are said to differ at a key. -/
def optPyEq : Option JSON → Option JSON → Bool
  | some v, some w => pyEq v w
  | none, none => true
  | _, _ => false

/-- The unconditional copy chain of replace_metadata_in_object (lines 90-97),
written out: createdAt, createdBy, chartReference and
intentTrainGroupReference from the main object B into the processed object. -/
def copyChain4 (B A : List (String × JSON)) : List (String × JSON) :=
  hf.copyIfPresent B
    (hf.copyIfPresent B
      (hf.copyIfPresent B (hf.copyIfPresent B A "createdAt") "createdBy")
      "chartReference")
    "intentTrainGroupReference"

theorem applyMainMeta_eq (B A : List (String × JSON)) :
    hf.applyMainMeta B A =
      (if pyEq (.obj (filterK hf.metadata_keys (copyChain4 B A)))
          (.obj (filterK hf.metadata_keys B)) then
        hf.copyIfPresent B (hf.copyIfPresent B (copyChain4 B A) "lastChanged")
          "lastChangedBy"
      else copyChain4 B A) := rfl

theorem copyChain4_lookup_other (B A : List (String × JSON)) (k : String)
    (h1 : k ≠ "createdAt") (h2 : k ≠ "createdBy") (h3 : k ≠ "chartReference")
    (h4 : k ≠ "intentTrainGroupReference") :
    lookupA (copyChain4 B A) k = lookupA A k := by
  rw [copyChain4]
  rw [lookupA_copyIfPresent_other _ _ _ _ (Ne.symm h4)]
  rw [lookupA_copyIfPresent_other _ _ _ _ (Ne.symm h3)]
  rw [lookupA_copyIfPresent_other _ _ _ _ (Ne.symm h2)]
  rw [lookupA_copyIfPresent_other _ _ _ _ (Ne.symm h1)]

theorem copyChain4_lookup_createdAt (B A : List (String × JSON)) :
    lookupA (copyChain4 B A) "createdAt" =
      match lookupA B "createdAt" with
      | some v => some v
      | none => lookupA A "createdAt" := by
  rw [copyChain4]
  rw [lookupA_copyIfPresent_other _ _ _ _ (by decide)]
  rw [lookupA_copyIfPresent_other _ _ _ _ (by decide)]
  rw [lookupA_copyIfPresent_other _ _ _ _ (by decide)]
  rw [lookupA_copyIfPresent_same]

theorem copyChain4_lookup_createdBy (B A : List (String × JSON)) :
    lookupA (copyChain4 B A) "createdBy" =
      match lookupA B "createdBy" with
      | some v => some v
      | none => lookupA A "createdBy" := by
  rw [copyChain4]
  rw [lookupA_copyIfPresent_other _ _ _ _ (by decide)]
  rw [lookupA_copyIfPresent_other _ _ _ _ (by decide)]
  rw [lookupA_copyIfPresent_same]
  cases hb : lookupA B "createdBy"
  · simp [lookupA_copyIfPresent_other _ _ _ _
      (show "createdAt" ≠ "createdBy" by decide)]
  · rfl

theorem copyChain4_lookup_chart (B A : List (String × JSON)) :
    lookupA (copyChain4 B A) "chartReference" =
      match lookupA B "chartReference" with
      | some v => some v
      | none => lookupA A "chartReference" := by
  rw [copyChain4]
  rw [lookupA_copyIfPresent_other _ _ _ _ (by decide)]
  rw [lookupA_copyIfPresent_same]
  cases hb : lookupA B "chartReference"
  · simp [lookupA_copyIfPresent_other _ _ _ _
        (show "createdBy" ≠ "chartReference" by decide),
      lookupA_copyIfPresent_other _ _ _ _
        (show "createdAt" ≠ "chartReference" by decide)]
  · rfl

theorem copyChain4_lookup_intent (B A : List (String × JSON)) :
    lookupA (copyChain4 B A) "intentTrainGroupReference" =
      match lookupA B "intentTrainGroupReference" with
      | some v => some v
      | none => lookupA A "intentTrainGroupReference" := by
  rw [copyChain4]
  rw [lookupA_copyIfPresent_same]
  cases hb : lookupA B "intentTrainGroupReference"
  · simp [lookupA_copyIfPresent_other _ _ _ _
        (show "chartReference" ≠ "intentTrainGroupReference" by decide),
      lookupA_copyIfPresent_other _ _ _ _
        (show "createdBy" ≠ "intentTrainGroupReference" by decide),
      lookupA_copyIfPresent_other _ _ _ _
        (show "createdAt" ≠ "intentTrainGroupReference" by decide)]
  · rfl

theorem noDupKeys_copyChain4 {A : List (String × JSON)}
    (B : List (String × JSON)) (h : noDupKeys A = true) :
    noDupKeys (copyChain4 B A) = true := by
  rw [copyChain4]
  exact noDupKeys_copyIfPresent B _
    (noDupKeys_copyIfPresent B _
      (noDupKeys_copyIfPresent B _ (noDupKeys_copyIfPresent B _ h)))

theorem pyEq_obj (fs gs : List (String × JSON)) :
    pyEq (.obj fs) (.obj gs) = (pyObjSub fs gs && pyObjSub gs fs) := by
  simp [pyEq.eq_def]

theorem cmp_true_of_eqExcept4 (A B : List (String × JSON))
    (hndA : noDupKeys A = true) (hndB : noDupKeys B = true)
    (hwfB : wfFields B = true)
    (hBcA : (lookupA B "createdAt").isSome = true)
    (hBcBy : (lookupA B "createdBy").isSome = true)
    (H : pyEq (.obj (filterK mi.meta4 A)) (.obj (filterK mi.meta4 B)) = true) :
    pyEq (.obj (filterK hf.metadata_keys (copyChain4 B A)))
      (.obj (filterK hf.metadata_keys B)) = true := by
  rw [pyEq_obj] at H ⊢
  rw [Bool.and_eq_true] at H ⊢
  obtain ⟨H1, H2⟩ := H
  constructor
  · rw [pyObjSub_iff]
    rintro ⟨k, v⟩ hp
    rw [filterK, List.mem_filter] at hp
    obtain ⟨hpA4, hk2⟩ := hp
    have hklC : k ≠ "lastChanged" := by
      intro hh; subst hh; simp [hf.metadata_keys] at hk2
    have hklCB : k ≠ "lastChangedBy" := by
      intro hh; subst hh; simp [hf.metadata_keys] at hk2
    have hkm2 : k ∉ hf.metadata_keys := by
      simp [hf.metadata_keys, hklC, hklCB]
    have hlook : lookupA (copyChain4 B A) k = some v :=
      mem_lookupA (noDupKeys_copyChain4 B hndA) hpA4
    have hrefl : ∀ w : JSON, lookupA B k = some w → pyEq w w = true :=
      fun w hbw => pyEq_refl w (wfFields_mem hwfB (k, w) (lookupA_mem hbw))
    by_cases hC : k = "createdAt" ∨ k = "createdBy" ∨ k = "chartReference" ∨
        k = "intentTrainGroupReference"
    · rcases hC with rfl | rfl | rfl | rfl
      · obtain ⟨b, hb⟩ := Option.isSome_iff_exists.mp hBcA
        rw [copyChain4_lookup_createdAt, hb] at hlook
        cases hlook
        refine ⟨v, ?_, hrefl v hb⟩
        rw [lookupA_filterK, if_neg hkm2]
        exact hb
      · obtain ⟨b, hb⟩ := Option.isSome_iff_exists.mp hBcBy
        rw [copyChain4_lookup_createdBy, hb] at hlook
        cases hlook
        refine ⟨v, ?_, hrefl v hb⟩
        rw [lookupA_filterK, if_neg hkm2]
        exact hb
      · rw [copyChain4_lookup_chart] at hlook
        cases hb : lookupA B "chartReference" with
        | some b =>
            rw [hb] at hlook
            cases hlook
            refine ⟨v, ?_, hrefl v hb⟩
            rw [lookupA_filterK, if_neg hkm2]
            exact hb
        | none =>
            rw [hb] at hlook
            have hm4 : "chartReference" ∉ mi.meta4 := by simp [mi.meta4]
            have hmemA : ("chartReference", v) ∈ filterK mi.meta4 A :=
              lookupA_mem (by rw [lookupA_filterK, if_neg hm4]; exact hlook)
            obtain ⟨w, hw, _⟩ := (pyObjSub_iff _ _).mp H1 _ hmemA
            rw [lookupA_filterK, if_neg hm4] at hw
            rw [hw] at hb
            cases hb
      · rw [copyChain4_lookup_intent] at hlook
        cases hb : lookupA B "intentTrainGroupReference" with
        | some b =>
            rw [hb] at hlook
            cases hlook
            refine ⟨v, ?_, hrefl v hb⟩
            rw [lookupA_filterK, if_neg hkm2]
            exact hb
        | none =>
            rw [hb] at hlook
            have hm4 : "intentTrainGroupReference" ∉ mi.meta4 := by
              simp [mi.meta4]
            have hmemA : ("intentTrainGroupReference", v) ∈ filterK mi.meta4 A :=
              lookupA_mem (by rw [lookupA_filterK, if_neg hm4]; exact hlook)
            obtain ⟨w, hw, _⟩ := (pyObjSub_iff _ _).mp H1 _ hmemA
            rw [lookupA_filterK, if_neg hm4] at hw
            rw [hw] at hb
            cases hb
    · push_neg at hC
      obtain ⟨hcA, hcBy, hch, hit⟩ := hC
      rw [copyChain4_lookup_other B A k hcA hcBy hch hit] at hlook
      have hkm4 : k ∉ mi.meta4 := by
        simp [mi.meta4, hcA, hcBy, hklC, hklCB]
      have hmemA : (k, v) ∈ filterK mi.meta4 A :=
        lookupA_mem (by rw [lookupA_filterK, if_neg hkm4]; exact hlook)
      obtain ⟨w, hw, hpe⟩ := (pyObjSub_iff _ _).mp H1 _ hmemA
      rw [lookupA_filterK, if_neg hkm4] at hw
      refine ⟨w, ?_, hpe⟩
      rw [lookupA_filterK, if_neg hkm2]
      exact hw
  · rw [pyObjSub_iff]
    rintro ⟨k, w⟩ hp
    rw [filterK, List.mem_filter] at hp
    obtain ⟨hpB, hk2⟩ := hp
    have hklC : k ≠ "lastChanged" := by
      intro hh; subst hh; simp [hf.metadata_keys] at hk2
    have hklCB : k ≠ "lastChangedBy" := by
      intro hh; subst hh; simp [hf.metadata_keys] at hk2
    have hkm2 : k ∉ hf.metadata_keys := by
      simp [hf.metadata_keys, hklC, hklCB]
    have hlookB : lookupA B k = some w := mem_lookupA hndB hpB
    have hreflw : pyEq w w = true :=
      pyEq_refl w (wfFields_mem hwfB (k, w) hpB)
    by_cases hC : k = "createdAt" ∨ k = "createdBy" ∨ k = "chartReference" ∨
        k = "intentTrainGroupReference"
    · have hchain : lookupA (copyChain4 B A) k = some w := by
        rcases hC with rfl | rfl | rfl | rfl
        · rw [copyChain4_lookup_createdAt, hlookB]
        · rw [copyChain4_lookup_createdBy, hlookB]
        · rw [copyChain4_lookup_chart, hlookB]
        · rw [copyChain4_lookup_intent, hlookB]
      refine ⟨w, ?_, hreflw⟩
      rw [lookupA_filterK, if_neg hkm2]
      exact hchain
    · push_neg at hC
      obtain ⟨hcA, hcBy, hch, hit⟩ := hC
      have hkm4 : k ∉ mi.meta4 := by
        simp [mi.meta4, hcA, hcBy, hklC, hklCB]
      have hmemB : (k, w) ∈ filterK mi.meta4 B :=
        lookupA_mem (by rw [lookupA_filterK, if_neg hkm4]; exact hlookB)
      obtain ⟨v, hv, hpe⟩ := (pyObjSub_iff _ _).mp H2 _ hmemB
      rw [lookupA_filterK, if_neg hkm4] at hv
      refine ⟨v, ?_, hpe⟩
      rw [lookupA_filterK, if_neg hkm2]
      rw [copyChain4_lookup_other B A k hcA hcBy hch hit]
      exact hv

theorem cmp_false_of_diff (A B : List (String × JSON)) (k : String)
    (hcA : k ≠ "createdAt") (hcBy : k ≠ "createdBy")
    (hch : k ≠ "chartReference") (hit : k ≠ "intentTrainGroupReference")
    (hlC : k ≠ "lastChanged") (hlCB : k ≠ "lastChangedBy")
    (hne : optPyEq (lookupA A k) (lookupA B k) = false) :
    pyEq (.obj (filterK hf.metadata_keys (copyChain4 B A)))
      (.obj (filterK hf.metadata_keys B)) = false := by
  by_contra hcon
  have htrue : pyEq (.obj (filterK hf.metadata_keys (copyChain4 B A)))
      (.obj (filterK hf.metadata_keys B)) = true := by
    rcases Bool.eq_false_or_eq_true (pyEq (.obj (filterK hf.metadata_keys (copyChain4 B A)))
      (.obj (filterK hf.metadata_keys B))) with h | h
    · exact h
    · exact absurd h hcon
  clear hcon
  rw [pyEq_obj, Bool.and_eq_true] at htrue
  obtain ⟨G1, G2⟩ := htrue
  have hkm2 : k ∉ hf.metadata_keys := by simp [hf.metadata_keys, hlC, hlCB]
  have hchain := copyChain4_lookup_other B A k hcA hcBy hch hit
  cases ha : lookupA A k with
  | some v =>
      have hmem : (k, v) ∈ filterK hf.metadata_keys (copyChain4 B A) :=
        lookupA_mem (by rw [lookupA_filterK, if_neg hkm2, hchain]; exact ha)
      obtain ⟨w, hw, hpe⟩ := (pyObjSub_iff _ _).mp G1 _ hmem
      rw [lookupA_filterK, if_neg hkm2] at hw
      rw [ha, hw] at hne
      rw [optPyEq] at hne
      rw [hpe] at hne
      cases hne
  | none =>
      cases hb : lookupA B k with
      | none => rw [ha, hb] at hne; simp [optPyEq] at hne
      | some w =>
          have hmemB : (k, w) ∈ filterK hf.metadata_keys B :=
            lookupA_mem (by rw [lookupA_filterK, if_neg hkm2]; exact hb)
          obtain ⟨v, hv, _⟩ := (pyObjSub_iff _ _).mp G2 _ hmemB
          rw [lookupA_filterK, if_neg hkm2, hchain, ha] at hv
          cases hv

theorem replace_metadata_step_eq (mm : List (String × List (String × JSON)))
    (A entry B : List (String × JSON)) (r : String)
    (h1 : lookupA A "referenceId" = some (.str r)) (h2 : r ≠ "")
    (h3 : lookupA mm r = some entry)
    (h4 : lookupA entry "objectData" = some (.obj B)) (h5 : B ≠ []) :
    hf.replace_metadata_step mm A = hf.applyMainMeta B A := by
  rw [hf.replace_metadata_step]
  simp only [h1, h3, h4]
  rw [if_neg h2, if_neg h5]

theorem carmAux_untouched :
    ∀ (mm fm : List (String × List (String × JSON))) (r : String),
      r ∉ keysOf mm → lookupA (mi.carmAux mm fm) r = lookupA fm r := by
  intro mm
  induction mm with
  | nil => intro fm r _; rfl
  | cons p rest ih =>
      obtain ⟨ref, mobj⟩ := p
      intro fm r hr
      simp only [keysOf, List.map_cons, List.mem_cons] at hr
      push_neg at hr
      rw [mi.carmAux]
      cases hfo : lookupA fm ref with
      | none =>
          simp only [hfo]
          exact ih fm r (by simpa [keysOf] using hr.2)
      | some fo =>
          simp only [hfo]
          by_cases hfe : fo = []
          · rw [if_pos hfe]
            exact ih fm r (by simpa [keysOf] using hr.2)
          · rw [if_neg hfe]
            rw [ih _ r (by simpa [keysOf] using hr.2)]
            exact lookupA_setKeyA_other fm ref r _ (fun hh => hr.1 hh.symm)

theorem carmAux_at :
    ∀ (mm fm : List (String × List (String × JSON))) (r : String)
      (B A : List (String × JSON)),
      noDupKeys mm = true → lookupA mm r = some B → lookupA fm r = some A →
      A ≠ [] →
      lookupA (mi.carmAux mm fm) r = some (mi.compare_replace_step B A) := by
  intro mm
  induction mm with
  | nil => intro fm r B A _ hB; simp [lookupA] at hB
  | cons p rest ih =>
      obtain ⟨ref, mobj⟩ := p
      intro fm r B A hnd hB hA hAne
      rw [noDupKeys, Bool.and_eq_true] at hnd
      by_cases href : ref = r
      · subst href
        have hBm : mobj = B := by
          rw [lookupA, if_pos rfl] at hB
          exact Option.some_inj.mp hB
        subst hBm
        rw [mi.carmAux]
        simp only [hA]
        rw [if_neg hAne]
        rw [carmAux_untouched rest _ ref (by simpa using hnd.1)]
        exact lookupA_setKeyA_same fm ref _
      · have hBrest : lookupA rest r = some B := by
          rw [lookupA, if_neg href] at hB
          exact hB
        rw [mi.carmAux]
        cases hfo : lookupA fm ref with
        | none =>
            simp only [hfo]
            exact ih fm r B A hnd.2 hBrest hA hAne
        | some fo =>
            simp only [hfo]
            by_cases hfe : fo = []
            · rw [if_pos hfe]
              exact ih fm r B A hnd.2 hBrest hA hAne
            · rw [if_neg hfe]
              refine ih _ r B A hnd.2 hBrest ?_ hAne
              rw [lookupA_setKeyA_other fm ref r _ href]
              exact hA

/-- C3 (corrected): metadata reconciliation.  For the map_ids variant
compare_and_replace_metadata the claim holds as stated: when feature object A
and main object B sharing a referenceId compare `==`-equal after dropping the
four metadata fields, A's four metadata fields (present in both) equal B's
afterwards; when they differ elsewhere, A is left entirely unchanged — and
this is what the feature entry of the mapping becomes (carmAux conjunct).
For the helper_functions variant replace_metadata_in_object the first half
holds; but when A and B differ on a non-metadata field (outside the six keys
it touches), only lastChanged and lastChangedBy are left unchanged, while
createdAt and createdBy (and chartReference, intentTrainGroupReference) are
still overwritten with B's values whenever B has them. -/
theorem C3_metadata_reconciliation
    (mm fm : List (String × List (String × JSON)))
    (A entry B : List (String × JSON)) (r : String) (k0 : String) :
    (pyEq (.obj (filterK mi.meta4 B)) (.obj (filterK mi.meta4 A)) = true →
        (∀ k ∈ mi.meta4, (lookupA A k).isSome = true →
          (lookupA B k).isSome = true →
          lookupA (mi.compare_replace_step B A) k = lookupA B k)) ∧
      (pyEq (.obj (filterK mi.meta4 B)) (.obj (filterK mi.meta4 A)) = false →
        mi.compare_replace_step B A = A) ∧
      (noDupKeys mm = true → lookupA mm r = some B → lookupA fm r = some A →
        A ≠ [] →
        lookupA (mi.compare_and_replace_metadata mm fm) r =
          some (mi.compare_replace_step B A)) ∧
      (lookupA A "referenceId" = some (.str r) → r ≠ "" →
        lookupA mm r = some entry →
        lookupA entry "objectData" = some (.obj B) → B ≠ [] →
        noDupKeys A = true → noDupKeys B = true → wfFields B = true →
        (lookupA B "createdAt").isSome = true →
        (lookupA B "createdBy").isSome = true →
        (lookupA B "lastChanged").isSome = true →
        (lookupA B "lastChangedBy").isSome = true →
        pyEq (.obj (filterK mi.meta4 A)) (.obj (filterK mi.meta4 B)) = true →
        ∀ k ∈ mi.meta4,
          lookupA (hf.replace_metadata_step mm A) k = lookupA B k) ∧
      (lookupA A "referenceId" = some (.str r) → r ≠ "" →
        lookupA mm r = some entry →
        lookupA entry "objectData" = some (.obj B) → B ≠ [] →
        k0 ≠ "createdAt" → k0 ≠ "createdBy" → k0 ≠ "chartReference" →
        k0 ≠ "intentTrainGroupReference" → k0 ≠ "lastChanged" →
        k0 ≠ "lastChangedBy" →
        optPyEq (lookupA A k0) (lookupA B k0) = false →
        lookupA (hf.replace_metadata_step mm A) "lastChanged" =
            lookupA A "lastChanged" ∧
          lookupA (hf.replace_metadata_step mm A) "lastChangedBy" =
            lookupA A "lastChangedBy" ∧
          lookupA (hf.replace_metadata_step mm A) "createdAt" =
            (match lookupA B "createdAt" with
             | some v => some v
             | none => lookupA A "createdAt") ∧
          lookupA (hf.replace_metadata_step mm A) "createdBy" =
            (match lookupA B "createdBy" with
             | some v => some v
             | none => lookupA A "createdBy")) := by
  refine ⟨?_, ?_, ?_, ?_, ?_⟩
  · intro hcond k hk hAp hBp
    rw [mi.compare_replace_step, if_pos hcond]
    have hfold : mi.meta4.foldl (fun d k2 => mi.copyIfBoth B d k2) A =
        mi.copyIfBoth B
          (mi.copyIfBoth B
            (mi.copyIfBoth B (mi.copyIfBoth B A "createdAt") "lastChanged")
            "createdBy")
          "lastChangedBy" := rfl
    rw [hfold]
    obtain ⟨a1, ha1⟩ := Option.isSome_iff_exists.mp hAp
    obtain ⟨b1, hb1⟩ := Option.isSome_iff_exists.mp hBp
    rw [hb1]
    rcases (by simpa [mi.meta4] using hk :
        k = "createdAt" ∨ k = "lastChanged" ∨ k = "createdBy" ∨
          k = "lastChangedBy") with rfl | rfl | rfl | rfl
    · rw [lookupA_copyIfBoth_other _ _ _ _ (by decide)]
      rw [lookupA_copyIfBoth_other _ _ _ _ (by decide)]
      rw [lookupA_copyIfBoth_other _ _ _ _ (by decide)]
      rw [lookupA_copyIfBoth_same, ha1, hb1]
    · rw [lookupA_copyIfBoth_other _ _ _ _ (by decide)]
      rw [lookupA_copyIfBoth_other _ _ _ _ (by decide)]
      rw [lookupA_copyIfBoth_same]
      rw [lookupA_copyIfBoth_other _ _ _ _ (by decide), ha1, hb1]
    · rw [lookupA_copyIfBoth_other _ _ _ _ (by decide)]
      rw [lookupA_copyIfBoth_same]
      rw [lookupA_copyIfBoth_other _ _ _ _ (by decide)]
      rw [lookupA_copyIfBoth_other _ _ _ _ (by decide), ha1, hb1]
    · rw [lookupA_copyIfBoth_same]
      rw [lookupA_copyIfBoth_other _ _ _ _ (by decide)]
      rw [lookupA_copyIfBoth_other _ _ _ _ (by decide)]
      rw [lookupA_copyIfBoth_other _ _ _ _ (by decide), ha1, hb1]
  · intro hcond
    rw [mi.compare_replace_step, if_neg (by simp [hcond])]
  · intro hnd hB hA hAne
    rw [mi.compare_and_replace_metadata]
    exact carmAux_at mm fm r B A hnd hB hA hAne
  · intro h1 h2 h3 h4 h5 hndA hndB hwfB hBcA hBcBy hBlC hBlCB H k hk
    rw [replace_metadata_step_eq mm A entry B r h1 h2 h3 h4 h5]
    rw [applyMainMeta_eq]
    rw [if_pos (cmp_true_of_eqExcept4 A B hndA hndB hwfB hBcA hBcBy H)]
    obtain ⟨blc, hblc⟩ := Option.isSome_iff_exists.mp hBlC
    obtain ⟨blcb, hblcb⟩ := Option.isSome_iff_exists.mp hBlCB
    obtain ⟨bca, hbca⟩ := Option.isSome_iff_exists.mp hBcA
    obtain ⟨bcb, hbcb⟩ := Option.isSome_iff_exists.mp hBcBy
    rcases (by simpa [mi.meta4] using hk :
        k = "createdAt" ∨ k = "lastChanged" ∨ k = "createdBy" ∨
          k = "lastChangedBy") with rfl | rfl | rfl | rfl
    · rw [lookupA_copyIfPresent_other _ _ _ _ (by decide)]
      rw [lookupA_copyIfPresent_other _ _ _ _ (by decide)]
      rw [copyChain4_lookup_createdAt, hbca]
    · rw [lookupA_copyIfPresent_other _ _ _ _ (by decide)]
      rw [lookupA_copyIfPresent_same, hblc]
    · rw [lookupA_copyIfPresent_other _ _ _ _ (by decide)]
      rw [lookupA_copyIfPresent_other _ _ _ _ (by decide)]
      rw [copyChain4_lookup_createdBy, hbcb]
    · rw [lookupA_copyIfPresent_same, hblcb]
  · intro h1 h2 h3 h4 h5 hcA hcBy hch hit hlC hlCB hne
    rw [replace_metadata_step_eq mm A entry B r h1 h2 h3 h4 h5]
    rw [applyMainMeta_eq]
    rw [if_neg (by
      rw [cmp_false_of_diff A B k0 hcA hcBy hch hit hlC hlCB hne]
      simp)]
    refine ⟨?_, ?_, ?_, ?_⟩
    · exact copyChain4_lookup_other B A _ (by decide) (by decide) (by decide)
        (by decide)
    · exact copyChain4_lookup_other B A _ (by decide) (by decide) (by decide)
        (by decide)
    · exact copyChain4_lookup_createdAt B A
    · exact copyChain4_lookup_createdBy B A

/-- Witness for C3_metadata_reconciliation: feature and main object equal
except the four metadata fields; after compare_and_replace_metadata the
feature lastChanged equals the main one. -/
theorem C3_metadata_reconciliation_witness :
    pyEq
        (.obj (filterK mi.meta4
          [("referenceId", JSON.str "r"), ("x", JSON.num 1),
           ("createdAt", JSON.num 2), ("createdBy", JSON.str "u"),
           ("lastChanged", JSON.num 3), ("lastChangedBy", JSON.str "w")]))
        (.obj (filterK mi.meta4
          [("referenceId", JSON.str "r"), ("x", JSON.num 1),
           ("createdAt", JSON.num 9), ("createdBy", JSON.str "q"),
           ("lastChanged", JSON.num 8), ("lastChangedBy", JSON.str "z")])) =
      true ∧
    lookupA
        (mi.compare_replace_step
          [("referenceId", JSON.str "r"), ("x", JSON.num 1),
           ("createdAt", JSON.num 2), ("createdBy", JSON.str "u"),
           ("lastChanged", JSON.num 3), ("lastChangedBy", JSON.str "w")]
          [("referenceId", JSON.str "r"), ("x", JSON.num 1),
           ("createdAt", JSON.num 9), ("createdBy", JSON.str "q"),
           ("lastChanged", JSON.num 8), ("lastChangedBy", JSON.str "z")])
        "lastChanged" =
      lookupA
        [("referenceId", JSON.str "r"), ("x", JSON.num 1),
         ("createdAt", JSON.num 2), ("createdBy", JSON.str "u"),
         ("lastChanged", JSON.num 3), ("lastChangedBy", JSON.str "w")]
        "lastChanged" := by
  have hcond : pyEq
      (.obj (filterK mi.meta4
        [("referenceId", JSON.str "r"), ("x", JSON.num 1),
         ("createdAt", JSON.num 2), ("createdBy", JSON.str "u"),
         ("lastChanged", JSON.num 3), ("lastChangedBy", JSON.str "w")]))
      (.obj (filterK mi.meta4
        [("referenceId", JSON.str "r"), ("x", JSON.num 1),
         ("createdAt", JSON.num 9), ("createdBy", JSON.str "q"),
         ("lastChanged", JSON.num 8), ("lastChangedBy", JSON.str "z")])) =
      true := by
    simp [pyEq.eq_def, pyObjSub.eq_def, filterK, mi.meta4, lookupA]
  refine ⟨hcond, ?_⟩
  exact (C3_metadata_reconciliation [] []
      [("referenceId", JSON.str "r"), ("x", JSON.num 1),
       ("createdAt", JSON.num 9), ("createdBy", JSON.str "q"),
       ("lastChanged", JSON.num 8), ("lastChangedBy", JSON.str "z")]
      []
      [("referenceId", JSON.str "r"), ("x", JSON.num 1),
       ("createdAt", JSON.num 2), ("createdBy", JSON.str "u"),
       ("lastChanged", JSON.num 3), ("lastChangedBy", JSON.str "w")]
      "r" "x").1 hcond "lastChanged" (by simp [mi.meta4]) rfl rfl

/-- Counterexample to C3 as stated: feature object A and main object B share
referenceId "r" and DIFFER on the non-metadata field "x" (1 against 99), yet
replace_metadata_in_object overwrites A's createdAt (1) with B's createdAt
(2); the claim says all four metadata fields are left unchanged. -/
theorem C3_counterexample :
    lookupA
        (hf.replace_metadata_step
          [("r", [("_id", JSON.null),
            ("objectData", JSON.obj
              [("referenceId", JSON.str "r"), ("createdAt", JSON.num 2),
               ("x", JSON.num 99)])])]
          [("referenceId", JSON.str "r"), ("createdAt", JSON.num 1),
           ("x", JSON.num 1)])
        "createdAt" = some (.num 2) ∧
      lookupA [("referenceId", JSON.str "r"), ("createdAt", JSON.num 1),
          ("x", JSON.num 1)] "createdAt" = some (.num 1) ∧
      lookupA [("referenceId", JSON.str "r"), ("createdAt", JSON.num 1),
          ("x", JSON.num 1)] "x" = some (.num 1) ∧
      lookupA [("referenceId", JSON.str "r"), ("createdAt", JSON.num 2),
          ("x", JSON.num 99)] "x" = some (.num 99) ∧
      JSON.num 1 ≠ JSON.num 2 := by
  have hstep : hf.replace_metadata_step
      [("r", [("_id", JSON.null),
        ("objectData", JSON.obj
          [("referenceId", JSON.str "r"), ("createdAt", JSON.num 2),
           ("x", JSON.num 99)])])]
      [("referenceId", JSON.str "r"), ("createdAt", JSON.num 1),
       ("x", JSON.num 1)] =
      hf.applyMainMeta
        [("referenceId", JSON.str "r"), ("createdAt", JSON.num 2),
         ("x", JSON.num 99)]
        [("referenceId", JSON.str "r"), ("createdAt", JSON.num 1),
         ("x", JSON.num 1)] :=
    replace_metadata_step_eq _ _ _ _ "r" rfl (by decide) rfl rfl (by decide)
  have hcmp : pyEq
      (.obj (filterK hf.metadata_keys
        (copyChain4
          [("referenceId", JSON.str "r"), ("createdAt", JSON.num 2),
           ("x", JSON.num 99)]
          [("referenceId", JSON.str "r"), ("createdAt", JSON.num 1),
           ("x", JSON.num 1)])))
      (.obj (filterK hf.metadata_keys
        [("referenceId", JSON.str "r"), ("createdAt", JSON.num 2),
         ("x", JSON.num 99)])) = false := by
    simp [pyEq.eq_def, pyObjSub.eq_def, filterK, hf.metadata_keys, lookupA,
      copyChain4, hf.copyIfPresent, setKeyA]
  refine ⟨?_, rfl, rfl, rfl, by decide⟩
  rw [hstep, applyMainMeta_eq, if_neg (by simp [hcmp])]
  rfl
